import Mathlib

/-!
# Uniswap module: swap pricing and message handlers

A shallow embedding of `x/uniswap/handler.go`.

* An `sdk.Int` holds an integer of at most 255 bits.  Its values are Lean
  integers; `Mul`, `Add` and `Sub` panic with `Int overflow` when the result
  needs more than 255 bits, and `Quo` is truncating division that panics on a
  zero divisor.  The zero value of the type (a declared and never assigned
  variable) holds no integer; it is `none` where it can occur.
* A Go panic is the `Except.error` branch of `Except String`, carrying the
  panic message.  A handler that returns yields `Except.ok (result, keeper)`.
* The keeper, the supply keeper (coin transfers), the coin constructors and the
  message types are not part of `handler.go`; the pieces the handlers touch are
  modelled below and marked as such.
* Names and arguments that `handler.go` leaves open are parameters of the
  handlers (`DepositScope`, `PackageScope`).
-/

set_option maxRecDepth 8000

namespace Uniswap

/-! ## sdk types -/

/-- Bit length of a natural number, computed with `fuel` halvings. -/
def bitLenAux : Nat → Nat → Nat
  | 0, _ => 0
  | fuel + 1, n => if n = 0 then 0 else bitLenAux fuel (n / 2) + 1

/-- Bit length of the absolute value of an integer (`big.Int.BitLen`). -/
def BitLen (a : Int) : Nat :=
  bitLenAux a.natAbs a.natAbs

namespace sdk

/-- Modelled from the spec: `sdk.Int.Mul` is declared outside `handler.go`.
The spec asks for an overflow check at every multiplication.  The SDK integer
refuses operands whose bit lengths sum to more than 256 and results of more
than 255 bits, with the panic `Int overflow`. -/
def Mul (a b : Int) : Except String Int :=
  if (BitLen a : Int) + (BitLen b : Int) - 1 > 255 then .error "Int overflow"
  else if BitLen (a * b) > 255 then .error "Int overflow"
  else .ok (a * b)

/-- Modelled from the spec: `sdk.Int.Add` is declared outside `handler.go`; it
panics with `Int overflow` when the sum needs more than 255 bits. -/
def Add (a b : Int) : Except String Int :=
  if BitLen (a + b) > 255 then .error "Int overflow" else .ok (a + b)

/-- Modelled from the spec: `sdk.Int.Sub` is declared outside `handler.go`; it
panics with `Int overflow` when the difference needs more than 255 bits. -/
def Sub (a b : Int) : Except String Int :=
  if BitLen (a - b) > 255 then .error "Int overflow" else .ok (a - b)

end sdk

/-- Modelled from the spec: `sdk.Int.Quo` is declared outside `handler.go`.
The spec asks for truncating integer division and names `DivideByZero` as the
failure on a zero divisor; the failure is a panic. -/
def Quo (a b : Int) : Except String Int :=
  if b = 0 then .error "Division by zero" else .ok (Int.tdiv a b)

/-- Modelled from the spec: `sdk.Coin` is a denomination with an amount. -/
structure Coin where
  Denom : String
  Amount : Int
deriving DecidableEq, Repr

/-- Denominations accepted by the SDK: a lower-case letter followed by 2 to 15
lower-case letters or digits. -/
def validateDenom (denom : String) : Bool :=
  match denom.data with
  | [] => false
  | c :: cs =>
    c.isLower && cs.all (fun x => x.isLower || x.isDigit) && decide (2 ≤ cs.length)
      && decide (cs.length ≤ 15)

/-- Modelled from the spec: `sdk.NewCoin` is declared outside `handler.go`.  It
pairs a denomination with an amount and panics on a denomination the SDK does
not accept, on an amount that was never assigned (`none`), and on a negative
amount.  The messages of its panics and of those of `NewCoins` name the kind
of panic. -/
def NewCoin (denom : String) (amount : Option Int) : Except String Coin :=
  if validateDenom denom then
    match amount with
    | none => .error "runtime error: invalid memory address or nil pointer dereference"
    | some a => if a < 0 then .error "negative coin amount" else .ok ⟨denom, a⟩
  else .error "invalid denom"

/-- Coins without the zero amounts (`removeZeroCoins`). -/
def removeZeroCoins (coins : List Coin) : List Coin :=
  coins.filter fun c => decide (c.Amount ≠ 0)

/-- Coins sorted by denomination (`Coins.Sort`); denominations compare as
character sequences. -/
def sortCoins (coins : List Coin) : List Coin :=
  coins.insertionSort fun a b => a.Denom.data < b.Denom.data

/-- Whether two neighbours of a sorted coin list share a denomination
(`findDup`). -/
def findDup : List Coin → Bool
  | a :: b :: rest => a.Denom = b.Denom || findDup (b :: rest)
  | _ => false

/-- No upper-case letter occurs in the denomination. -/
def lowerCase (denom : String) : Bool :=
  denom.data.all fun c => !c.isUpper

/-- The check `Coins.IsValid` on the coins after the first: lower-case
denominations in strictly increasing order and positive amounts. -/
def validTail : String → List Coin → Bool
  | _, [] => true
  | lowDenom, c :: rest =>
    lowerCase c.Denom && decide (lowDenom.data < c.Denom.data) && decide (0 < c.Amount)
      && validTail c.Denom rest

/-- The check `Coins.IsValid`: the first coin has an accepted denomination and
a positive amount, and the others pass `validTail`. -/
def IsValid : List Coin → Bool
  | [] => true
  | c :: rest => validateDenom c.Denom && decide (0 < c.Amount) && validTail c.Denom rest

/-- Modelled from the spec: `sdk.NewCoins` is declared outside `handler.go`.  It
drops the zero coins, sorts the others by denomination and panics on a
duplicate denomination or on a coin set that is not valid. -/
def NewCoins (coins : List Coin) : Except String (List Coin) :=
  let newCoins := removeZeroCoins coins
  if newCoins.isEmpty then .ok []
  else
    let sorted := sortCoins newCoins
    if findDup sorted then .error "find duplicate denom"
    else if IsValid sorted then .ok sorted
    else .error "invalid coin set"

/-- Error kinds the handlers can put in a result. -/
inductive SdkError
  | InvalidBound
  | InsufficientCoins
  | UnknownRequest
deriving DecidableEq, Repr

/-- An `sdk.Result`: either the empty success result `sdk.Result{}` or the
result of an error (`err.Result()`). -/
inductive Result
  | empty
  | failure (e : SdkError)
deriving DecidableEq, Repr

/-- Fee parameters `FeeN / FeeD` returned by `k.GetFeeParams`. -/
structure FeeParams where
  FeeN : Int
  FeeD : Int
deriving DecidableEq, Repr

/-! ## Accounts and the supply keeper -/

/-- Holder of coins: a user address or a named module account. -/
inductive Account
  | addr (a : Nat)
  | module (name : String)
deriving DecidableEq, Repr

/-- Coin balances held by the supply keeper, per account and denomination. -/
abbrev Bank := Account → String → Int

/-- Balance of `a` in `d` changed by `x`. -/
def Bank.credit (b : Bank) (a : Account) (d : String) (x : Int) : Bank :=
  fun a' d' => if a' = a ∧ d' = d then b a' d' + x else b a' d'

/-- Modelled from the spec: the token-transfer collaborator
`TransferFunds(from, to, asset, amount) -> fails with InsufficientBalance`.
Coins are moved one by one; if the source lacks any of them the whole transfer
fails and no balance is returned. -/
def SendCoins (b : Bank) (src dst : Account) : List Coin → Except SdkError Bank
  | [] => .ok b
  | c :: cs =>
    if b src c.Denom < c.Amount then .error SdkError.InsufficientCoins
    else SendCoins ((b.credit src c.Denom (-c.Amount)).credit dst c.Denom c.Amount) src dst cs

/-! ## Keeper -/

/-- Modelled from the spec: the keeper state read and written by the handlers
(`ReadPool`/`WritePool`, `ReadShares`/`WriteShares`, fee parameters) together
with the balances of its supply keeper. -/
structure Keeper where
  exchange : String → Option Int
  feeParams : FeeParams
  totalUNI : Option Int
  UNI : Nat → Int
  supply : Bank

/-- Name of the reserve asset every exchange is paired against. -/
def NativeAsset : String := "native"

/-- Name of the module account holding the pooled funds. -/
def ModuleName : String := "uniswap"

/-- Modelled from the spec: `k.GetExchange` (`ReadPool(denom) -> ExchangePool |
absent`) as a Go `(value, err)` pair: the reserve and `false`, or the zero
value and `true` when no exchange is stored. -/
def Keeper.GetExchange (k : Keeper) (denom : String) : Int × Bool :=
  match k.exchange denom with
  | some r => (r, false)
  | none => (0, true)

/-- Modelled from the spec: `k.CreateExchange` stores an empty exchange. -/
def Keeper.CreateExchange (k : Keeper) (denom : String) : Keeper :=
  { k with exchange := fun d => if d = denom then some 0 else k.exchange d }

/-- Total liquidity-share supply as a Go `(value, err)` pair. -/
def Keeper.GetTotalUNI (k : Keeper) : Int × Bool :=
  match k.totalUNI with
  | some t => (t, false)
  | none => (0, true)

/-- Stores the total liquidity-share supply. -/
def Keeper.SetTotalUNI (k : Keeper) (t : Int) : Keeper :=
  { k with totalUNI := some t }

/-- Liquidity shares held by an address. -/
def Keeper.GetUNIForAddress (k : Keeper) (a : Nat) : Int :=
  k.UNI a

/-- Stores the liquidity shares held by an address. -/
def Keeper.SetUNIForAddress (k : Keeper) (a : Nat) (v : Int) : Keeper :=
  { k with UNI := fun a' => if a' = a then v else k.UNI a' }

/-- The call `k.supplyKeeper.SendCoinsFromAccountToModule`: the keeper after the
call and the error it returns, if any.  A failed transfer changes nothing. -/
def Keeper.SendCoinsFromAccountToModule (k : Keeper) (sender : Nat) (module : String)
    (coins : List Coin) : Keeper × Option SdkError :=
  match SendCoins k.supply (Account.addr sender) (Account.module module) coins with
  | .ok b => ({ k with supply := b }, none)
  | .error e => (k, some e)

/-- The call `k.supplyKeeper.SendCoinsFromModuleToAccount`: the keeper after the
call and the error it returns, if any.  A failed transfer changes nothing. -/
def Keeper.SendCoinsFromModuleToAccount (k : Keeper) (module : String) (recipient : Nat)
    (coins : List Coin) : Keeper × Option SdkError :=
  match SendCoins k.supply (Account.module module) (Account.addr recipient) coins with
  | .ok b => ({ k with supply := b }, none)
  | .error e => (k, some e)

/-! ## Pricing (`getInputAmount`, `getOutputAmount`) -/

/-- Function `getInputAmount`: the amount of coins sold (calculated) given the output
amount being bought (exact). -/
def getInputAmount (k : Keeper) (outputAmt : Int) (inputDenom outputDenom : String) :
    Except String Int :=
  let inputReserve := (k.GetExchange inputDenom).1
  let outputReserve := (k.GetExchange outputDenom).1
  let params := k.feeParams
  ((sdk.Mul inputReserve outputReserve).bind fun t => sdk.Mul t params.FeeD).bind
    fun numerator =>
  ((sdk.Sub outputReserve outputAmt).bind fun t => sdk.Mul t params.FeeN).bind
    fun denominator =>
  (Quo numerator denominator).bind fun q => sdk.Add q 1

/-- Function `getOutputAmount`: the amount of coins bought (calculated) given the input
amount being sold (exact). -/
def getOutputAmount (k : Keeper) (inputAmt : Int) (inputDenom outputDenom : String) :
    Except String Int :=
  let inputReserve := (k.GetExchange inputDenom).1
  let outputReserve := (k.GetExchange outputDenom).1
  let params := k.feeParams
  (sdk.Mul inputAmt params.FeeN).bind fun inputAmtWithFee =>
  (sdk.Mul inputAmtWithFee outputReserve).bind fun numerator =>
  ((sdk.Mul inputReserve params.FeeD).bind fun t => sdk.Add t inputAmtWithFee).bind
    fun denominator =>
  Quo numerator denominator

/-- The values `getOutputAmount` forms for the input `x` on reserves
`(Rin, Rout)` are below `2 ^ 255`, the range of an `sdk.Int`. -/
def sellInRange (p : FeeParams) (Rin Rout x : Int) : Prop :=
  p.FeeN < 2 ^ 255 ∧ Rout < 2 ^ 255 ∧ x * p.FeeN * Rout < 2 ^ 255
    ∧ Rin * p.FeeD + x * p.FeeN < 2 ^ 255

instance (p : FeeParams) (Rin Rout x : Int) : Decidable (sellInRange p Rin Rout x) := by
  unfold sellInRange
  infer_instance

/-- The values `getInputAmount` forms for the output `y` on reserves
`(Rin, Rout)` are below `2 ^ 255`, the range of an `sdk.Int`. -/
def buyInRange (p : FeeParams) (Rin Rout y : Int) : Prop :=
  Rin * Rout * p.FeeD + 1 < 2 ^ 255 ∧ (Rout - y) * p.FeeN < 2 ^ 255

instance (p : FeeParams) (Rin Rout y : Int) : Decidable (buyInRange p Rin Rout y) := by
  unfold buyInRange
  infer_instance

/-! ## Messages -/

/-- The fields of `MsgSwapOrder` read by the handler. -/
structure MsgSwapOrder where
  SwapDenom : String
  Amount : Int
  Input : Coin
  Output : Coin
  Sender : Nat
  IsBuyOrder : Bool

/-- The fields of `MsgAddLiquidity` read by the handler. -/
structure MsgAddLiquidity where
  Denom : String
  Deposit : Coin
  DepositAmount : Int
  Sender : Nat

/-- The fields of `MsgRemoveLiquidity` read by the handler. -/
structure MsgRemoveLiquidity where
  Withdraw : Coin
  WithdrawAmount : Int
  Sender : Nat

/-- What `HandleMsgAddLiquidity` leaves open.  Line 83 passes the amount
`coinDeposited` to `sdk.NewCoins`, which takes coins: `coinDeposited` maps the
amount to the coin passed.  Line 95 calls `SetUNIForAddress` without an
address: `holder` is the address written. -/
structure DepositScope where
  coinDeposited : Int → Coin
  holder : Nat

/-- What `HandleMsgRemoveLiquidity` leaves open: the names `nativeDenom`,
`coinDeposited` and `MintedUNI`, which neither the function nor `handler.go`
binds, and the address `holder` written by the call of `SetUNIForAddress` on
line 138, which passes none. -/
structure PackageScope where
  nativeDenom : String
  coinDeposited : Coin
  MintedUNI : Int
  holder : Nat

/-- The keeper methods `k.GetInputAmount(ctx, denom, amount)` and
`k.GetOutputAmount(ctx, denom, amount)` called by `HandleMsgSwapOrder` are
declared outside `handler.go`; the handler is parameterised by them. -/
structure SwapPricing where
  GetInputAmount : Keeper → String → Int → Except String Int
  GetOutputAmount : Keeper → String → Int → Except String Int

/-- Modelled from the spec: `executeBuy` uses `computeInputRequired` and
`executeSell` uses `computeOutputForInput` on the pool of the order's
denomination; the traded pair is the reserve asset against `SwapDenom`. -/
def reservePricing : SwapPricing where
  GetInputAmount := fun k denom amt => getInputAmount k amt NativeAsset denom
  GetOutputAmount := fun k denom amt => getOutputAmount k amt NativeAsset denom

/-! ## Handlers -/

/-- Handler `HandleMsgSwapOrder`.  The function opens with `var caclulatedAmount sdk.Int`,
which is never assigned.  The buy branch binds its own `calculatedAmount` with
`:=`; in the sell branch the name `calculatedAmount` has no binding other than
that opening declaration, so it denotes the unassigned value there.  The values
returned by both `SendCoins...` calls are discarded.  A panic leaves no state
behind. -/
def HandleMsgSwapOrder (p : SwapPricing) (msg : MsgSwapOrder) (k : Keeper) :
    Except String (Result × Keeper) :=
  let caclulatedAmount : Option Int := none
  if msg.IsBuyOrder then
    (p.GetInputAmount k msg.SwapDenom msg.Amount).bind fun calculatedAmount =>
      if msg.Input.Amount < calculatedAmount then
        .ok (Result.failure SdkError.InvalidBound, k)
      else
        (NewCoin msg.Input.Denom (some calculatedAmount)).bind fun coin =>
        (NewCoins [coin]).bind fun coins =>
          let k1 := (k.SendCoinsFromAccountToModule msg.Sender ModuleName coins).1
          (NewCoins [msg.Output]).bind fun out =>
            let k2 := (k1.SendCoinsFromModuleToAccount ModuleName msg.Sender out).1
            .ok (Result.empty, k2)
  else
    (p.GetOutputAmount k msg.SwapDenom msg.Amount).bind fun outputAmount =>
      if msg.Output.Amount > outputAmount then
        .ok (Result.failure SdkError.InvalidBound, k)
      else
        (NewCoins [msg.Input]).bind fun coins =>
          let k1 := (k.SendCoinsFromAccountToModule msg.Sender ModuleName coins).1
          (NewCoin msg.Output.Denom caclulatedAmount).bind fun coin =>
          (NewCoins [coin]).bind fun out =>
            let k2 := (k1.SendCoinsFromModuleToAccount ModuleName msg.Sender out).1
            .ok (Result.empty, k2)

/-- Handler `HandleMsgAddLiquidity`.  The coin `exchangeCoin` is built and not
used; the coins sent are `nativeCoin` and the coin the scope makes of
`coinDeposited`, and `SetUNIForAddress` writes the scope's address. -/
def HandleMsgAddLiquidity (s : DepositScope) (msg : MsgAddLiquidity) (k : Keeper) :
    Except String (Result × Keeper) :=
  let k0 := if (k.GetExchange msg.Deposit.Denom).2 then k.CreateExchange msg.Denom else k
  let nativeLiquidity := k0.GetExchange NativeAsset
  if nativeLiquidity.2 then .error "error retrieving native asset total liquidity"
  else
    let totalUNI := k0.GetTotalUNI
    if totalUNI.2 then .error "error retrieving total UNI"
    else
      ((sdk.Mul totalUNI.1 msg.DepositAmount).bind fun t => Quo t nativeLiquidity.1).bind
        fun MintedUNI =>
      ((sdk.Mul totalUNI.1 msg.DepositAmount).bind fun t => Quo t nativeLiquidity.1).bind
        fun coinDeposited =>
      (NewCoin NativeAsset (some msg.DepositAmount)).bind fun nativeCoin =>
      (NewCoin msg.Deposit.Denom (some coinDeposited)).bind fun _exchangeCoin =>
      (NewCoins [nativeCoin, s.coinDeposited coinDeposited]).bind fun coins =>
        let sent := k0.SendCoinsFromAccountToModule msg.Sender ModuleName coins
        match sent.2 with
        | some err => .ok (Result.failure err, sent.1)
        | none =>
          (sdk.Add totalUNI.1 MintedUNI).bind fun totalUNI' =>
            let k1 := sent.1.SetTotalUNI totalUNI'
            (sdk.Add (k1.GetUNIForAddress msg.Sender) MintedUNI).bind fun UNIBalance =>
              .ok (Result.empty, k1.SetUNIForAddress s.holder UNIBalance)

/-- Handler `HandleMsgRemoveLiquidity`.  The misspelt `coinLiqudity` is the local
`coinLiquidity`.  The transfer goes from the module account `ModuleName` to
`msg.Sender` and carries `nativeCoin` and `coinDeposited`; the coin
`exchangeCoin` is built and not used.  The share total and the sender's balance
are updated with `Add(MintedUNI)`, and `SetUNIForAddress` writes the scope's
address. -/
def HandleMsgRemoveLiquidity (s : PackageScope) (msg : MsgRemoveLiquidity) (k : Keeper) :
    Except String (Result × Keeper) :=
  let coinLiquidity := k.GetExchange msg.Withdraw.Denom
  if coinLiquidity.2 then
    .error ("error retrieving total liquidity for denomination: " ++ msg.Withdraw.Denom)
  else
    let nativeLiquidity := k.GetExchange NativeAsset
    if nativeLiquidity.2 then .error "error retrieving native asset total liquidity"
    else
      let totalUNI := k.GetTotalUNI
      if totalUNI.2 then .error "error retrieving total UNI"
      else
        ((sdk.Mul msg.WithdrawAmount nativeLiquidity.1).bind fun t => Quo t totalUNI.1).bind
          fun nativeWithdrawn =>
        ((sdk.Mul msg.WithdrawAmount coinLiquidity.1).bind fun t => Quo t totalUNI.1).bind
          fun coinWithdrawn =>
        (NewCoin s.nativeDenom (some nativeWithdrawn)).bind fun nativeCoin =>
        (NewCoin msg.Withdraw.Denom (some coinWithdrawn)).bind fun _exchangeCoin =>
        (NewCoins [nativeCoin, s.coinDeposited]).bind fun coins =>
          let sent := k.SendCoinsFromModuleToAccount ModuleName msg.Sender coins
          match sent.2 with
          | some err => .ok (Result.failure err, sent.1)
          | none =>
            (sdk.Add totalUNI.1 s.MintedUNI).bind fun totalUNI' =>
              let k1 := sent.1.SetTotalUNI totalUNI'
              (sdk.Add (k1.GetUNIForAddress msg.Sender) s.MintedUNI).bind fun UNIBalance =>
                .ok (Result.empty, k1.SetUNIForAddress s.holder UNIBalance)

/-! ## Scenario data -/

/-- The pool of the spec's scenario: reserves `(1000 native, 1000 token)`, fee
parameters `997 / 1000`, 500 shares; address 1 holds nothing and the module
account holds the reserves. -/
def scenarioKeeper : Keeper where
  exchange := fun d => if d = "native" then some 1000 else if d = "token" then some 1000 else none
  feeParams := ⟨997, 1000⟩
  totalUNI := some 500
  UNI := fun _ => 0
  supply := fun a d =>
    if a = Account.module "uniswap" ∧ (d = "native" ∨ d = "token") then 1000 else 0

/-- The scenario pool with address 1 funded with 5000 of each asset. -/
def fundedKeeper : Keeper :=
  { scenarioKeeper with
    supply := fun a d =>
      if a = Account.module "uniswap" ∧ (d = "native" ∨ d = "token") then 1000
      else if a = Account.addr 1 ∧ (d = "native" ∨ d = "token") then 5000 else 0 }

/-- The scenario pool after address 1 bought 100 tokens for 1115 native coins. -/
def afterBuyKeeper : Keeper :=
  { scenarioKeeper with
    exchange := fun d =>
      if d = "native" then some 2115 else if d = "token" then some 900 else none }

/-- A pool whose two reserves are `2 ^ 128`, with the scenario's fee parameters. -/
def largeKeeper : Keeper :=
  { scenarioKeeper with
    exchange := fun d =>
      if d = "native" then some (2 ^ 128) else if d = "token" then some (2 ^ 128) else none }

/-- The scenario pool with address 1 holding `2 ^ 254` of each asset. -/
def whaleKeeper : Keeper :=
  { scenarioKeeper with
    supply := fun a d =>
      if a = Account.module "uniswap" ∧ (d = "native" ∨ d = "token") then 1000
      else if a = Account.addr 1 ∧ (d = "native" ∨ d = "token") then 2 ^ 254 else 0 }

/-- A buy order for `amount` tokens from address 1 that accepts paying up to
`maxInput` native coins. -/
def buyTokens (amount maxInput : Int) : MsgSwapOrder where
  SwapDenom := "token"
  Amount := amount
  Input := ⟨"native", maxInput⟩
  Output := ⟨"token", amount⟩
  Sender := 1
  IsBuyOrder := true

/-- A buy order for 100 tokens from address 1 that accepts paying up to
`maxInput` native coins. -/
def buyOrder (maxInput : Int) : MsgSwapOrder :=
  buyTokens 100 maxInput

/-- A buy order of address 1 for 100 coins of `atom`, for which no exchange is
stored, paying up to 1000 native coins. -/
def buyUnknown : MsgSwapOrder where
  SwapDenom := "atom"
  Amount := 100
  Input := ⟨"native", 1000⟩
  Output := ⟨"atom", 100⟩
  Sender := 1
  IsBuyOrder := true

/-- A sell order of 100 native coins from address 1 that asks for at least
`minOutput` tokens. -/
def sellOrder (minOutput : Int) : MsgSwapOrder where
  SwapDenom := "token"
  Amount := 100
  Input := ⟨"native", 100⟩
  Output := ⟨"token", minOutput⟩
  Sender := 1
  IsBuyOrder := false

/-- A deposit of 100 native coins by address 1 into the token pool, with at
most 1000 tokens. -/
def depositOrder : MsgAddLiquidity where
  Denom := "token"
  Deposit := ⟨"token", 1000⟩
  DepositAmount := 100
  Sender := 1

/-- The same deposit as `depositOrder` with the caller's bound on the paired
amount replaced by `maxPaired`. -/
def boundedDeposit (maxPaired : Int) : MsgAddLiquidity :=
  { depositOrder with Deposit := ⟨"token", maxPaired⟩ }

/-- A deposit of `2 ^ 250` native coins by address 1 into the token pool. -/
def hugeDeposit : MsgAddLiquidity :=
  { depositOrder with DepositAmount := 2 ^ 250 }

/-- The reading of `HandleMsgAddLiquidity` for deposits of address 1 into the
token pool: the amount `coinDeposited` is passed as a coin of tokens, and the
balance written is that of address 1. -/
def tokenScope : DepositScope where
  coinDeposited := fun amount => ⟨"token", amount⟩
  holder := 1

/-- An exchange stored with zero reserves and zero shares; address 1 holds 5000
of each asset. -/
def emptyKeeper : Keeper where
  exchange := fun d => if d = "native" then some 0 else if d = "token" then some 0 else none
  feeParams := ⟨997, 1000⟩
  totalUNI := some 0
  UNI := fun _ => 0
  supply := fun a d =>
    if a = Account.addr 1 ∧ (d = "native" ∨ d = "token") then 5000 else 0

/-- A keeper in which nothing was ever stored; address 1 holds 5000 of each
asset. -/
def freshKeeper : Keeper :=
  { emptyKeeper with exchange := fun _ => none, totalUNI := none }

/-- The first deposit of the spec's scenario: 500 native coins and 500 tokens
from address 1. -/
def initialDeposit : MsgAddLiquidity where
  Denom := "token"
  Deposit := ⟨"token", 500⟩
  DepositAmount := 500
  Sender := 1

/-- The scenario pool with all 500 shares held by address 1. -/
def shareKeeper : Keeper :=
  { scenarioKeeper with UNI := fun a => if a = 1 then 500 else 0 }

/-- The funded scenario pool with all 500 shares held by address 2. -/
def otherHolderKeeper : Keeper :=
  { fundedKeeper with UNI := fun a => if a = 2 then 500 else 0 }

/-- A request of address 1 to burn `shares` shares of the token pool. -/
def withdrawOrder (shares : Int) : MsgRemoveLiquidity where
  Withdraw := ⟨"token", 0⟩
  WithdrawAmount := shares
  Sender := 1

/-- The exchange store of the scenario with an exchange for `atom` added. -/
def atomExchange : String → Option Int :=
  fun d => if d = "atom" then some 5 else scenarioKeeper.exchange d

/-- A request of address 1 to burn 100 shares of a pool that does not exist. -/
def withdrawUnknown : MsgRemoveLiquidity where
  Withdraw := ⟨"atom", 0⟩
  WithdrawAmount := 100
  Sender := 1

/-- Values for what `HandleMsgRemoveLiquidity` leaves open: the native
denomination, a coin of `paired` tokens, the amount `minted`, and address 1 as
the address written. -/
def scopeWith (paired minted : Int) : PackageScope where
  nativeDenom := "native"
  coinDeposited := ⟨"token", paired⟩
  MintedUNI := minted
  holder := 1

/-! ## Arithmetic of `sdk.Int` -/

/-- Bit length against a power of two, given enough fuel. -/
theorem bitLenAux_le (fuel : Nat) : ∀ n k, n ≤ fuel → (bitLenAux fuel n ≤ k ↔ n < 2 ^ k) := by
  induction fuel with
  | zero =>
    intro n k h
    have : n = 0 := by omega
    subst this
    simp [bitLenAux]
  | succ f ih =>
    intro n k h
    unfold bitLenAux
    by_cases hn : n = 0
    · subst hn; simp
    · simp only [hn, if_false]
      cases k with
      | zero => simp; omega
      | succ k' =>
        have h2 : n / 2 ≤ f := by omega
        rw [Nat.add_le_add_iff_right, ih (n / 2) k' h2, pow_succ]
        omega

/-- An integer has at most `k` bits exactly when its absolute value is below
`2 ^ k`. -/
theorem BitLen_le (a : Int) (k : Nat) : BitLen a ≤ k ↔ a.natAbs < 2 ^ k :=
  bitLenAux_le a.natAbs a.natAbs k le_rfl

/-- Absolute value of a non-negative integer below `2 ^ 255`. -/
theorem natAbs_lt_of_nonneg (a : Int) (h0 : 0 ≤ a) (h : a < 2 ^ 255) :
    a.natAbs < 2 ^ 255 := by
  omega

/-- A bind in `Except` returns exactly when both steps return. -/
theorem bind_eq_ok {ε α β : Type} (x : Except ε α) (f : α → Except ε β) (b : β) :
    x.bind f = .ok b ↔ ∃ a, x = .ok a ∧ f a = .ok b := by
  cases x with
  | error e => simp [Except.bind]
  | ok a => simp [Except.bind]

/-- A returned product is the product. -/
theorem Mul_inv (a b c : Int) (h : sdk.Mul a b = .ok c) : c = a * b := by
  unfold sdk.Mul at h
  split_ifs at h
  exact (Except.ok.inj h).symm

/-- A returned sum is the sum. -/
theorem Add_inv (a b c : Int) (h : sdk.Add a b = .ok c) : c = a + b := by
  unfold sdk.Add at h
  split_ifs at h
  exact (Except.ok.inj h).symm

/-- A returned difference is the difference. -/
theorem Sub_inv (a b c : Int) (h : sdk.Sub a b = .ok c) : c = a - b := by
  unfold sdk.Sub at h
  split_ifs at h
  exact (Except.ok.inj h).symm

/-- A returned quotient is the truncated quotient by a non-zero divisor. -/
theorem Quo_inv (a b c : Int) (h : Quo a b = .ok c) : b ≠ 0 ∧ c = Int.tdiv a b := by
  unfold Quo at h
  split_ifs at h with hb
  exact ⟨hb, (Except.ok.inj h).symm⟩

/-- `Quo` on a non-zero divisor returns the truncated quotient. -/
theorem Quo_ok (a b : Int) (hb : b ≠ 0) : Quo a b = .ok (Int.tdiv a b) := by
  simp [Quo, hb]

/-- `Add` returns the sum when it fits 255 bits. -/
theorem Add_ok (a b : Int) (h : (a + b).natAbs < 2 ^ 255) : sdk.Add a b = .ok (a + b) := by
  unfold sdk.Add
  rw [if_neg]
  exact not_lt.mpr ((BitLen_le _ 255).mpr h)

/-- `Sub` returns the difference when it fits 255 bits. -/
theorem Sub_ok (a b : Int) (h : (a - b).natAbs < 2 ^ 255) : sdk.Sub a b = .ok (a - b) := by
  unfold sdk.Sub
  rw [if_neg]
  exact not_lt.mpr ((BitLen_le _ 255).mpr h)

/-- The bit lengths of two factors whose product fits 255 bits sum to at most
256. -/
theorem BitLen_add_le (a b : Int) (ha : a.natAbs < 2 ^ 255) (hb : b.natAbs < 2 ^ 255)
    (hab : (a * b).natAbs < 2 ^ 255) : BitLen a + BitLen b ≤ 256 := by
  have hA : BitLen a ≤ 255 := (BitLen_le a 255).mpr ha
  have hB : BitLen b ≤ 255 := (BitLen_le b 255).mpr hb
  by_cases hpa : BitLen a = 0
  · omega
  by_cases hpb : BitLen b = 0
  · omega
  have h1 : 2 ^ (BitLen a - 1) ≤ a.natAbs := by
    by_contra hc
    have := (BitLen_le a (BitLen a - 1)).mpr (not_le.mp hc)
    omega
  have h2 : 2 ^ (BitLen b - 1) ≤ b.natAbs := by
    by_contra hc
    have := (BitLen_le b (BitLen b - 1)).mpr (not_le.mp hc)
    omega
  have h3 : 2 ^ (BitLen a - 1 + (BitLen b - 1)) ≤ a.natAbs * b.natAbs := by
    rw [pow_add]
    exact Nat.mul_le_mul h1 h2
  rw [Int.natAbs_mul] at hab
  have h4 : 2 ^ (BitLen a - 1 + (BitLen b - 1)) < 2 ^ 255 := lt_of_le_of_lt h3 hab
  have h5 := (Nat.pow_lt_pow_iff_right (by norm_num : 1 < 2)).mp h4
  omega

/-- `Mul` returns the product of two `sdk.Int` values when it fits 255 bits. -/
theorem Mul_ok (a b : Int) (ha : a.natAbs < 2 ^ 255) (hb : b.natAbs < 2 ^ 255)
    (hab : (a * b).natAbs < 2 ^ 255) : sdk.Mul a b = .ok (a * b) := by
  have h1 := BitLen_add_le a b ha hb hab
  have h2 : BitLen (a * b) ≤ 255 := (BitLen_le _ 255).mpr hab
  unfold sdk.Mul
  rw [if_neg (by omega), if_neg (by omega)]

/-- `Mul` on non-negative `sdk.Int` values whose product is below `2 ^ 255`. -/
theorem Mul_ok_nonneg (a b : Int) (ha : 0 ≤ a) (hb : 0 ≤ b) (ha' : a < 2 ^ 255)
    (hb' : b < 2 ^ 255) (hab : a * b < 2 ^ 255) : sdk.Mul a b = .ok (a * b) :=
  Mul_ok a b (natAbs_lt_of_nonneg a ha ha') (natAbs_lt_of_nonneg b hb hb')
    (natAbs_lt_of_nonneg (a * b) (mul_nonneg ha hb) hab)

/-- Truncating division of a non-negative integer by a positive one is the
floor of the rational quotient. -/
theorem tdiv_eq_floor (a b : Int) (ha : 0 ≤ a) (hb : 0 < b) :
    Int.tdiv a b = ⌊((a : ℚ) / (b : ℚ))⌋ := by
  rw [Int.tdiv_eq_ediv ha hb.le]
  symm
  rw [Int.floor_eq_iff]
  have hbq : (0 : ℚ) < (b : ℚ) := by exact_mod_cast hb
  constructor
  · rw [le_div_iff₀ hbq]
    exact_mod_cast Int.ediv_mul_le a hb.ne'
  · rw [div_lt_iff₀ hbq]
    exact_mod_cast Int.lt_ediv_add_one_mul_self a hb

/-- Reading a stored reserve. -/
theorem GetExchange_some (k : Keeper) (d : String) (r : Int) (h : k.exchange d = some r) :
    (k.GetExchange d).1 = r := by
  simp [Keeper.GetExchange, h]

/-- A value returned by `getOutputAmount` is the truncated quotient, and the
divisor is not zero. -/
theorem getOutputAmount_inv (k : Keeper) (x : Int) (inD outD : String) (Rin Rout z : Int)
    (hin : k.exchange inD = some Rin) (hout : k.exchange outD = some Rout)
    (h : getOutputAmount k x inD outD = .ok z) :
    Rin * k.feeParams.FeeD + x * k.feeParams.FeeN ≠ 0
      ∧ z = Int.tdiv (x * k.feeParams.FeeN * Rout)
              (Rin * k.feeParams.FeeD + x * k.feeParams.FeeN) := by
  unfold getOutputAmount at h
  simp only [GetExchange_some k inD Rin hin, GetExchange_some k outD Rout hout,
    bind_eq_ok] at h
  obtain ⟨a, ha, n, hn, d, ⟨t, ht, hd⟩, hq⟩ := h
  have ha' := Mul_inv _ _ _ ha
  have hn' := Mul_inv _ _ _ hn
  have ht' := Mul_inv _ _ _ ht
  have hd' := Add_inv _ _ _ hd
  subst ha' hn' ht' hd'
  exact Quo_inv _ _ _ hq

/-- A value returned by `getInputAmount` is the truncated quotient plus one, and
the divisor is not zero. -/
theorem getInputAmount_inv (k : Keeper) (y : Int) (inD outD : String) (Rin Rout c : Int)
    (hin : k.exchange inD = some Rin) (hout : k.exchange outD = some Rout)
    (h : getInputAmount k y inD outD = .ok c) :
    (Rout - y) * k.feeParams.FeeN ≠ 0
      ∧ c = Int.tdiv (Rin * Rout * k.feeParams.FeeD) ((Rout - y) * k.feeParams.FeeN) + 1 := by
  unfold getInputAmount at h
  simp only [GetExchange_some k inD Rin hin, GetExchange_some k outD Rout hout,
    bind_eq_ok] at h
  obtain ⟨n, ⟨t, ht, hn⟩, d, ⟨u, hu, hd⟩, q, hq, hc⟩ := h
  have ht' := Mul_inv _ _ _ ht
  have hn' := Mul_inv _ _ _ hn
  have hu' := Sub_inv _ _ _ hu
  have hd' := Mul_inv _ _ _ hd
  have hc' := Add_inv _ _ _ hc
  subst ht' hn' hu' hd'
  obtain ⟨hne, hq'⟩ := Quo_inv _ _ _ hq
  subst hq'
  exact ⟨hne, hc'⟩

/-- Value of `getOutputAmount` on stored reserves when no intermediate value
leaves the range of an `sdk.Int`. -/
theorem getOutputAmount_ok (k : Keeper) (x : Int) (inD outD : String) (Rin Rout : Int)
    (hin : k.exchange inD = some Rin) (hout : k.exchange outD = some Rout)
    (hx : 0 ≤ x) (hRin : 0 < Rin) (hRout : 0 ≤ Rout)
    (hN : 0 < k.feeParams.FeeN) (hD : 0 < k.feeParams.FeeD)
    (hr : sellInRange k.feeParams Rin Rout x) :
    getOutputAmount k x inD outD
      = .ok (Int.tdiv (x * k.feeParams.FeeN * Rout)
          (Rin * k.feeParams.FeeD + x * k.feeParams.FeeN)) := by
  obtain ⟨hN', hRout', hnum, hden⟩ := hr
  have hxN : 0 ≤ x * k.feeParams.FeeN := by positivity
  have hRD : 0 < Rin * k.feeParams.FeeD := by positivity
  have hxN' : x * k.feeParams.FeeN < 2 ^ 255 := by linarith
  have hRD' : Rin * k.feeParams.FeeD < 2 ^ 255 := by linarith
  have hx' : x < 2 ^ 255 := by nlinarith
  have hRin' : Rin < 2 ^ 255 := by nlinarith
  have hD' : k.feeParams.FeeD < 2 ^ 255 := by nlinarith
  have hden0 : 0 < Rin * k.feeParams.FeeD + x * k.feeParams.FeeN := by positivity
  unfold getOutputAmount
  simp only [GetExchange_some k inD Rin hin, GetExchange_some k outD Rout hout]
  rw [Mul_ok_nonneg x _ hx hN.le hx' hN' hxN']
  simp only [Except.bind]
  rw [Mul_ok_nonneg _ Rout hxN hRout hxN' hRout' hnum]
  simp only [Except.bind]
  rw [Mul_ok_nonneg Rin _ hRin.le hD.le hRin' hD' hRD']
  simp only [Except.bind]
  rw [Add_ok _ _ (natAbs_lt_of_nonneg _ hden0.le hden)]
  simp only [Except.bind]
  exact Quo_ok _ _ hden0.ne'

/-- Value of `getInputAmount` on stored reserves for `y < Rout` when no
intermediate value leaves the range of an `sdk.Int`. -/
theorem getInputAmount_ok (k : Keeper) (y : Int) (inD outD : String) (Rin Rout : Int)
    (hin : k.exchange inD = some Rin) (hout : k.exchange outD = some Rout)
    (hRin : 0 < Rin) (hRout : 0 < Rout)
    (hN : 0 < k.feeParams.FeeN) (hD : 0 < k.feeParams.FeeD) (hlt : y < Rout)
    (hr : buyInRange k.feeParams Rin Rout y) :
    getInputAmount k y inD outD
      = .ok (Int.tdiv (Rin * Rout * k.feeParams.FeeD) ((Rout - y) * k.feeParams.FeeN) + 1) := by
  obtain ⟨hnum, hden⟩ := hr
  have hsub : 0 < Rout - y := by omega
  have hRR : 0 < Rin * Rout := by positivity
  have hnum0 : 0 < Rin * Rout * k.feeParams.FeeD := by positivity
  have hden0 : 0 < (Rout - y) * k.feeParams.FeeN := by positivity
  have hRR' : Rin * Rout < 2 ^ 255 := by nlinarith
  have hRin' : Rin < 2 ^ 255 := by nlinarith
  have hRout' : Rout < 2 ^ 255 := by nlinarith
  have hD' : k.feeParams.FeeD < 2 ^ 255 := by nlinarith
  have hsub' : Rout - y < 2 ^ 255 := by nlinarith
  have hN' : k.feeParams.FeeN < 2 ^ 255 := by nlinarith
  have hq0 : 0 ≤ Int.tdiv (Rin * Rout * k.feeParams.FeeD) ((Rout - y) * k.feeParams.FeeN) :=
    Int.tdiv_nonneg hnum0.le hden0.le
  have hq1 : Int.tdiv (Rin * Rout * k.feeParams.FeeD) ((Rout - y) * k.feeParams.FeeN)
      ≤ Rin * Rout * k.feeParams.FeeD := by
    rw [Int.tdiv_eq_ediv hnum0.le hden0.le]
    exact Int.ediv_le_self _ hnum0.le
  unfold getInputAmount
  simp only [GetExchange_some k inD Rin hin, GetExchange_some k outD Rout hout]
  rw [Mul_ok_nonneg Rin Rout hRin.le hRout.le hRin' hRout' hRR']
  simp only [Except.bind]
  rw [Mul_ok_nonneg _ _ hRR.le hD.le hRR' hD' (by linarith)]
  simp only [Except.bind]
  rw [Sub_ok _ _ (natAbs_lt_of_nonneg _ hsub.le hsub')]
  simp only [Except.bind]
  rw [Mul_ok_nonneg _ _ hsub.le hN.le hsub' hN' hden]
  simp only [Except.bind]
  rw [Quo_ok _ _ hden0.ne']
  simp only [Except.bind]
  exact Add_ok _ _ (natAbs_lt_of_nonneg _ (by omega) (by omega))

/-! ## Arithmetic of the pricing formulas -/

/-- Selling `x` for the truncated quotient keeps the reserve product. -/
theorem sell_product_le (Rin Rout N D x : Int) (hRin : 0 < Rin) (hRout : 0 < Rout)
    (hN : 0 < N) (hND : N < D) (hx : 0 ≤ x) :
    Rin * Rout ≤ (Rin + x) * (Rout - Int.tdiv (x * N * Rout) (Rin * D + x * N)) := by
  have hden : 0 < Rin * D + x * N := by nlinarith
  have hnum : 0 ≤ x * N * Rout := by positivity
  rw [Int.tdiv_eq_ediv hnum hden.le]
  set q := x * N * Rout / (Rin * D + x * N) with hq
  have hq0 : 0 ≤ q := Int.ediv_nonneg hnum hden.le
  have h1 : q * (Rin * D + x * N) ≤ x * N * Rout := Int.ediv_mul_le _ hden.ne'
  have h2 : q * (Rin * N) ≤ q * (Rin * D) := by
    apply mul_le_mul_of_nonneg_left _ hq0
    nlinarith
  have h3 : N * (q * (Rin + x)) ≤ N * (x * Rout) := by nlinarith
  have h4 : q * (Rin + x) ≤ x * Rout := le_of_mul_le_mul_left h3 hN
  nlinarith

/-- The truncated quotient charged for buying `y` exceeds the exact price. -/
theorem buy_charge_lt (Rin Rout N D y : Int) (hRin : 0 < Rin) (hRout : 0 < Rout)
    (hN : 0 < N) (hD : 0 < D) (hyR : y < Rout) :
    Rin * Rout * D
      < (Int.tdiv (Rin * Rout * D) ((Rout - y) * N) + 1) * ((Rout - y) * N)
    ∧ 0 < Int.tdiv (Rin * Rout * D) ((Rout - y) * N) + 1 := by
  have hsub : 0 < Rout - y := by omega
  have hden : 0 < (Rout - y) * N := by positivity
  have hnum : 0 ≤ Rin * Rout * D := by positivity
  rw [Int.tdiv_eq_ediv hnum hden.le]
  refine ⟨Int.lt_ediv_add_one_mul_self _ hden, ?_⟩
  have := Int.ediv_nonneg hnum hden.le
  omega

/-- Buying `y` for the charged amount keeps the reserve product. -/
theorem buy_product_le (Rin Rout N D y : Int) (hRin : 0 < Rin) (hRout : 0 < Rout)
    (hN : 0 < N) (hND : N ≤ D) (hyR : y < Rout) :
    Rin * Rout
      ≤ (Rin + (Int.tdiv (Rin * Rout * D) ((Rout - y) * N) + 1)) * (Rout - y) := by
  have hD : 0 < D := lt_of_lt_of_le hN hND
  obtain ⟨h1, h2⟩ := buy_charge_lt Rin Rout N D y hRin hRout hN hD hyR
  set c := Int.tdiv (Rin * Rout * D) ((Rout - y) * N) + 1 with hc
  have hsub : 0 < Rout - y := by omega
  have hcs : 0 < c * (Rout - y) := by positivity
  have h3 : c * (Rout - y) * N ≤ c * (Rout - y) * D := mul_le_mul_of_nonneg_left hND hcs.le
  have h4 : Rin * Rout * D < c * (Rout - y) * D := by nlinarith
  have h5 : Rin * Rout < c * (Rout - y) := lt_of_mul_lt_mul_right h4 hD.le
  nlinarith

/-- Selling `y` back on the reserves left by a buy of `y` returns at most the
amount charged for the buy. -/
theorem sell_back_le (Rin Rout N D y : Int) (hRin : 0 < Rin) (hRout : 0 < Rout)
    (hN : 0 < N) (hND : N ≤ D) (hy : 0 < y) (hyR : y < Rout) :
    Int.tdiv
        (y * N * (Rin + (Int.tdiv (Rin * Rout * D) ((Rout - y) * N) + 1)))
        ((Rout - y) * D + y * N)
      ≤ Int.tdiv (Rin * Rout * D) ((Rout - y) * N) + 1 := by
  have hD : 0 < D := lt_of_lt_of_le hN hND
  obtain ⟨h1, h2⟩ := buy_charge_lt Rin Rout N D y hRin hRout hN hD hyR
  set c := Int.tdiv (Rin * Rout * D) ((Rout - y) * N) + 1 with hc
  have hsub : 0 < Rout - y := by omega
  have hden : 0 < (Rout - y) * D + y * N := by positivity
  have hnum : 0 ≤ y * N * (Rin + c) := by positivity
  rw [Int.tdiv_eq_ediv hnum hden.le]
  apply Int.ediv_le_of_le_mul hden
  have hcs : 0 < c * (Rout - y) := by positivity
  have h3 : c * (Rout - y) * N ≤ c * (Rout - y) * D :=
    mul_le_mul_of_nonneg_left hND hcs.le
  have h4 : Rin * y * N ≤ Rin * Rout * D := by
    have : Rin * y ≤ Rin * Rout := by nlinarith
    have h5 : Rin * y * N ≤ Rin * Rout * N := mul_le_mul_of_nonneg_right this hN.le
    have h6 : Rin * Rout * N ≤ Rin * Rout * D :=
      mul_le_mul_of_nonneg_left hND (by positivity)
    linarith
  nlinarith

/-- The amount charged for buying `y` buys at least `y` under the sell formula. -/
theorem quote_buys_output (Rin Rout N D y : Int) (hRin : 0 < Rin) (hRout : 0 < Rout)
    (hN : 0 < N) (hND : N ≤ D) (hyR : y < Rout) :
    y ≤ Int.tdiv
        ((Int.tdiv (Rin * Rout * D) ((Rout - y) * N) + 1) * N * Rout)
        (Rin * D + (Int.tdiv (Rin * Rout * D) ((Rout - y) * N) + 1) * N) := by
  have hD : 0 < D := lt_of_lt_of_le hN hND
  obtain ⟨h1, h2⟩ := buy_charge_lt Rin Rout N D y hRin hRout hN hD hyR
  set c := Int.tdiv (Rin * Rout * D) ((Rout - y) * N) + 1 with hc
  have hden : 0 < Rin * D + c * N := by positivity
  have hnum : 0 ≤ c * N * Rout := by positivity
  rw [Int.tdiv_eq_ediv hnum hden.le]
  apply Int.le_ediv_of_mul_le hden
  have h3 : Rin * y * D ≤ Rin * Rout * D := by
    have : Rin * y ≤ Rin * Rout := by nlinarith
    exact mul_le_mul_of_nonneg_right this hD.le
  nlinarith

/-- The truncated sell quotient is non-negative and below the output reserve. -/
theorem sell_lt_reserve (Rin Rout N D x : Int) (hRin : 0 < Rin) (hRout : 0 < Rout)
    (hN : 0 < N) (hD : 0 < D) (hx : 0 ≤ x) :
    0 ≤ Int.tdiv (x * N * Rout) (Rin * D + x * N)
      ∧ Int.tdiv (x * N * Rout) (Rin * D + x * N) < Rout := by
  have hden : 0 < Rin * D + x * N := by positivity
  have hnum : 0 ≤ x * N * Rout := by positivity
  have hRD : 0 < Rin * D * Rout := by positivity
  rw [Int.tdiv_eq_ediv hnum hden.le]
  refine ⟨Int.ediv_nonneg hnum hden.le, ?_⟩
  apply Int.ediv_lt_of_lt_mul hden
  nlinarith

/-- The truncated sell quotient does not decrease with the input. -/
theorem sell_monotone (Rin Rout N D x x' : Int) (hRin : 0 < Rin) (hRout : 0 < Rout)
    (hN : 0 < N) (hD : 0 < D) (hx : 0 ≤ x) (hxx : x ≤ x') :
    Int.tdiv (x * N * Rout) (Rin * D + x * N)
      ≤ Int.tdiv (x' * N * Rout) (Rin * D + x' * N) := by
  have hx' : 0 ≤ x' := le_trans hx hxx
  obtain ⟨_, hlt⟩ := sell_lt_reserve Rin Rout N D x hRin hRout hN hD hx
  have hden : 0 < Rin * D + x * N := by positivity
  have hden' : 0 < Rin * D + x' * N := by positivity
  have hnum : 0 ≤ x * N * Rout := by positivity
  have hnum' : 0 ≤ x' * N * Rout := by positivity
  rw [Int.tdiv_eq_ediv hnum hden.le] at hlt ⊢
  rw [Int.tdiv_eq_ediv hnum' hden'.le]
  apply Int.le_ediv_of_mul_le hden'
  set q := x * N * Rout / (Rin * D + x * N) with hq
  have h1 : q * (Rin * D + x * N) ≤ x * N * Rout := Int.ediv_mul_le _ hden.ne'
  have h2 : q * ((x' - x) * N) ≤ Rout * ((x' - x) * N) := by
    apply mul_le_mul_of_nonneg_right hlt.le
    have : 0 ≤ x' - x := by omega
    positivity
  nlinarith

/-- The range condition of `getOutputAmount` passes to smaller inputs. -/
theorem sellInRange_mono (p : FeeParams) (Rin Rout x x' : Int) (hRout : 0 ≤ Rout)
    (hN : 0 < p.FeeN) (hxx : x ≤ x') (hr : sellInRange p Rin Rout x') :
    sellInRange p Rin Rout x := by
  obtain ⟨h1, h2, h3, h4⟩ := hr
  have h5 : x * p.FeeN ≤ x' * p.FeeN := mul_le_mul_of_nonneg_right hxx hN.le
  have h6 : x * p.FeeN * Rout ≤ x' * p.FeeN * Rout := mul_le_mul_of_nonneg_right h5 hRout
  exact ⟨h1, h2, by linarith, by linarith⟩

/-! ## Pricing formulas -/

/-- C1 (as stated) fails: on reserves `(2 ^ 128, 2 ^ 128)` with fee parameters
`997 / 1000` the input amount `2 ^ 128` makes `getOutputAmount` panic with
`Int overflow` instead of returning the floor. -/
theorem getOutputAmount_overflow_counterexample :
    largeKeeper.exchange "native" = some (2 ^ 128)
      ∧ largeKeeper.exchange "token" = some (2 ^ 128)
      ∧ getOutputAmount largeKeeper (2 ^ 128) "native" "token" = .error "Int overflow" :=
  ⟨rfl, rfl, rfl⟩

/-- C1 (amended): for an input amount `x ≥ 0`, reserves `inputReserve > 0`,
`outputReserve ≥ 0` and fee parameters `FeeN > 0`, `FeeD > 0` such that the
values formed stay below `2 ^ 255`, `getOutputAmount` returns exactly
`floor((x * FeeN * outputReserve) / (inputReserve * FeeD + x * FeeN))`; with
reserves `(1000, 1000)`, `FeeN = 997`, `FeeD = 1000` and `x = 100` it returns 90. -/
theorem getOutputAmount_eq_floor (k : Keeper) (x : Int) (inD outD : String) (Rin Rout : Int)
    (hin : k.exchange inD = some Rin) (hout : k.exchange outD = some Rout)
    (hx : 0 ≤ x) (hRin : 0 < Rin) (hRout : 0 ≤ Rout)
    (hN : 0 < k.feeParams.FeeN) (hD : 0 < k.feeParams.FeeD)
    (hr : sellInRange k.feeParams Rin Rout x) :
    getOutputAmount k x inD outD
        = .ok ⌊(((x * k.feeParams.FeeN * Rout : Int) : ℚ))
                / ((Rin * k.feeParams.FeeD + x * k.feeParams.FeeN : Int) : ℚ)⌋
      ∧ getOutputAmount scenarioKeeper 100 "native" "token" = .ok 90 := by
  have hden : 0 < Rin * k.feeParams.FeeD + x * k.feeParams.FeeN := by positivity
  have hnum : 0 ≤ x * k.feeParams.FeeN * Rout := by positivity
  refine ⟨?_, rfl⟩
  rw [getOutputAmount_ok k x inD outD Rin Rout hin hout hx hRin hRout hN hD hr,
    tdiv_eq_floor _ _ hnum hden]

/-- Witness for C1 (amended) on the scenario pool. -/
theorem getOutputAmount_eq_floor_witness :
    getOutputAmount scenarioKeeper 100 "native" "token"
        = .ok ⌊(((100 * 997 * 1000 : Int) : ℚ)) / ((1000 * 1000 + 100 * 997 : Int) : ℚ)⌋
      ∧ getOutputAmount scenarioKeeper 100 "native" "token" = .ok 90 :=
  getOutputAmount_eq_floor scenarioKeeper 100 "native" "token" 1000 1000 rfl rfl
    (by decide) (by decide) (by decide) (by decide) (by decide) (by decide)

/-- C2 (as stated) fails: on reserves `(2 ^ 128, 2 ^ 128)` the product of the
reserves does not fit an `sdk.Int`, and `getInputAmount` panics with
`Int overflow` for the output amount 100. -/
theorem getInputAmount_overflow_counterexample :
    largeKeeper.exchange "native" = some (2 ^ 128)
      ∧ largeKeeper.exchange "token" = some (2 ^ 128)
      ∧ getInputAmount largeKeeper 100 "native" "token" = .error "Int overflow" :=
  ⟨rfl, rfl, rfl⟩

/-- C2 (amended): for positive reserves, fee parameters `FeeN > 0`, `FeeD > 0`
and an output amount `y < outputReserve` such that the values formed stay
below `2 ^ 255`, `getInputAmount` returns exactly
`floor((inputReserve * outputReserve * FeeD) / ((outputReserve - y) * FeeN)) + 1`. -/
theorem getInputAmount_eq_floor (k : Keeper) (y : Int) (inD outD : String) (Rin Rout : Int)
    (hin : k.exchange inD = some Rin) (hout : k.exchange outD = some Rout)
    (hRin : 0 < Rin) (hRout : 0 < Rout)
    (hN : 0 < k.feeParams.FeeN) (hD : 0 < k.feeParams.FeeD)
    (hlt : y < Rout) (hr : buyInRange k.feeParams Rin Rout y) :
    getInputAmount k y inD outD
        = .ok (⌊(((Rin * Rout * k.feeParams.FeeD : Int) : ℚ))
                / (((Rout - y) * k.feeParams.FeeN : Int) : ℚ)⌋ + 1) := by
  have hsub : 0 < Rout - y := by omega
  have hden : 0 < (Rout - y) * k.feeParams.FeeN := by positivity
  have hnum : 0 ≤ Rin * Rout * k.feeParams.FeeD := by positivity
  rw [getInputAmount_ok k y inD outD Rin Rout hin hout hRin hRout hN hD hlt hr,
    tdiv_eq_floor _ _ hnum hden]

/-- Witness for C2 (amended) on the scenario pool. -/
theorem getInputAmount_eq_floor_witness :
    getInputAmount scenarioKeeper 100 "native" "token"
        = .ok (⌊(((1000 * 1000 * 1000 : Int) : ℚ)) / (((1000 - 100) * 997 : Int) : ℚ)⌋ + 1) :=
  getInputAmount_eq_floor scenarioKeeper 100 "native" "token" 1000 1000 rfl rfl
    (by decide) (by decide) (by decide) (by decide) (by decide) (by decide)

/-! ## Swap invariants -/

/-- C3: the reserve product never decreases across a swap.  For positive
reserves and fee `0 < FeeN < FeeD`: (a) every amount `out` that
`getOutputAmount` returns for a sell of `x > 0` satisfies
`(Rin + x) * (Rout - out) ≥ Rin * Rout`; (b) every amount `inp` that
`getInputAmount` returns for a buy of `y < Rout` satisfies
`(Rin + inp) * (Rout - y) ≥ Rin * Rout`; and both functions return when the
values they form stay below `2 ^ 255`. -/
theorem swap_reserve_product_nondecreasing (k : Keeper) (inD outD : String)
    (Rin Rout x y : Int)
    (hin : k.exchange inD = some Rin) (hout : k.exchange outD = some Rout)
    (hRin : 0 < Rin) (hRout : 0 < Rout)
    (hN : 0 < k.feeParams.FeeN) (hND : k.feeParams.FeeN < k.feeParams.FeeD)
    (hx : 0 < x) (hyR : y < Rout) :
    (∀ out, getOutputAmount k x inD outD = .ok out
        → Rin * Rout ≤ (Rin + x) * (Rout - out))
      ∧ (∀ inp, getInputAmount k y inD outD = .ok inp
        → Rin * Rout ≤ (Rin + inp) * (Rout - y))
      ∧ (sellInRange k.feeParams Rin Rout x → ∃ out, getOutputAmount k x inD outD = .ok out)
      ∧ (buyInRange k.feeParams Rin Rout y → ∃ inp, getInputAmount k y inD outD = .ok inp) := by
  have hD : 0 < k.feeParams.FeeD := lt_trans hN hND
  refine ⟨fun out ho => ?_, fun inp hi => ?_, fun hr => ⟨_, getOutputAmount_ok k x inD outD
    Rin Rout hin hout hx.le hRin hRout.le hN hD hr⟩, fun hr => ⟨_, getInputAmount_ok k y inD
    outD Rin Rout hin hout hRin hRout hN hD hyR hr⟩⟩
  · obtain ⟨_, rfl⟩ := getOutputAmount_inv k x inD outD Rin Rout out hin hout ho
    exact sell_product_le Rin Rout _ _ x hRin hRout hN hND hx.le
  · obtain ⟨_, rfl⟩ := getInputAmount_inv k y inD outD Rin Rout inp hin hout hi
    exact buy_product_le Rin Rout _ _ y hRin hRout hN hND.le hyR

/-- Witness for C3 on the scenario pool: selling 100 and buying 100. -/
theorem swap_reserve_product_nondecreasing_witness :
    (∃ out, getOutputAmount scenarioKeeper 100 "native" "token" = .ok out
        ∧ (1000 : Int) * 1000 ≤ (1000 + 100) * (1000 - out))
      ∧ (∃ inp, getInputAmount scenarioKeeper 100 "native" "token" = .ok inp
        ∧ (1000 : Int) * 1000 ≤ (1000 + inp) * (1000 - 100)) := by
  obtain ⟨h1, h2, h3, h4⟩ := swap_reserve_product_nondecreasing scenarioKeeper "native"
    "token" 1000 1000 100 100 rfl rfl (by decide) (by decide) (by decide) (by decide)
    (by decide) (by decide)
  obtain ⟨out, ho⟩ := h3 (by decide)
  obtain ⟨inp, hi⟩ := h4 (by decide)
  exact ⟨⟨out, ho, h1 out ho⟩, ⟨inp, hi, h2 inp hi⟩⟩

/-- C4: a round trip is never profitable.  For positive reserves, fee
`0 < FeeN < FeeD` and `0 < y < Rout`: whenever `getInputAmount` charges an
amount `x` on reserves `(Rin, Rout)` and selling the `y` units back on the
updated reserves (input reserve `Rout - y`, output reserve `Rin + x`) with
`getOutputAmount` yields an amount `z`, then `z ≤ x`; and both calls return
when the values they form stay below `2 ^ 255`. -/
theorem round_trip_not_profitable (k : Keeper) (inD outD : String) (Rin Rout y : Int)
    (hin : k.exchange inD = some Rin) (hout : k.exchange outD = some Rout)
    (hRin : 0 < Rin) (hRout : 0 < Rout)
    (hN : 0 < k.feeParams.FeeN) (hND : k.feeParams.FeeN < k.feeParams.FeeD)
    (hy : 0 < y) (hyR : y < Rout) :
    (∀ x, getInputAmount k y inD outD = .ok x →
        ∀ k' : Keeper, k'.feeParams = k.feeParams
          → k'.exchange outD = some (Rout - y) → k'.exchange inD = some (Rin + x)
          → ∀ z, getOutputAmount k' y outD inD = .ok z → z ≤ x)
      ∧ (buyInRange k.feeParams Rin Rout y →
          ∃ x, getInputAmount k y inD outD = .ok x
            ∧ ∀ k' : Keeper, k'.feeParams = k.feeParams
              → k'.exchange outD = some (Rout - y) → k'.exchange inD = some (Rin + x)
              → sellInRange k.feeParams (Rout - y) (Rin + x) y
              → ∃ z, getOutputAmount k' y outD inD = .ok z ∧ z ≤ x) := by
  have hD : 0 < k.feeParams.FeeD := lt_trans hN hND
  have hsub : 0 < Rout - y := by omega
  have key : ∀ x, getInputAmount k y inD outD = .ok x →
      ∀ k' : Keeper, k'.feeParams = k.feeParams
        → k'.exchange outD = some (Rout - y) → k'.exchange inD = some (Rin + x)
        → ∀ z, getOutputAmount k' y outD inD = .ok z → z ≤ x := by
    intro x hx k' hfee hin' hout' z hz
    obtain ⟨_, rfl⟩ := getInputAmount_inv k y inD outD Rin Rout x hin hout hx
    obtain ⟨_, rfl⟩ := getOutputAmount_inv k' y outD inD (Rout - y) _ z hin' hout' hz
    rw [hfee]
    exact sell_back_le Rin Rout _ _ y hRin hRout hN hND.le hy hyR
  refine ⟨key, fun hr => ?_⟩
  have hx := getInputAmount_ok k y inD outD Rin Rout hin hout hRin hRout hN hD hyR hr
  refine ⟨_, hx, fun k' hfee hin' hout' hr' => ?_⟩
  obtain ⟨_, hc⟩ := buy_charge_lt Rin Rout _ _ y hRin hRout hN hD hyR
  have hz := getOutputAmount_ok k' y outD inD (Rout - y) _ hin' hout' hy.le hsub
    (by omega) (by rw [hfee]; exact hN) (by rw [hfee]; exact hD) (by rw [hfee]; exact hr')
  exact ⟨_, hz, key _ hx k' hfee hin' hout' _ hz⟩

/-- Witness for C4 on the scenario pool: buying 100 is charged 1115, and selling
the 100 back on reserves `(900, 2115)` returns at most 1115. -/
theorem round_trip_not_profitable_witness :
    ∃ z, getOutputAmount afterBuyKeeper 100 "token" "native" = .ok z ∧ z ≤ 1115 := by
  obtain ⟨_, h⟩ := round_trip_not_profitable scenarioKeeper "native" "token" 1000 1000 100
    rfl rfl (by decide) (by decide) (by decide) (by decide) (by decide) (by decide)
  obtain ⟨x, hx, h'⟩ := h (by decide)
  have hx' : x = 1115 := by
    have h0 : getInputAmount scenarioKeeper 100 "native" "token" = .ok 1115 := rfl
    rw [h0] at hx
    exact (Except.ok.inj hx).symm
  subst hx'
  exact h' afterBuyKeeper rfl rfl rfl (by decide)

/-- C19: the price quoted for a buy is sufficient under the sell formula.  For
positive reserves, fee `0 < FeeN ≤ FeeD` and `y < Rout`: whenever
`getInputAmount` returns an amount `x` and `getOutputAmount` on the same
reserves returns for `x` an amount `z`, then `z ≥ y`; and both calls return
when the values they form stay below `2 ^ 255`. -/
theorem quoted_input_buys_output (k : Keeper) (inD outD : String) (Rin Rout y : Int)
    (hin : k.exchange inD = some Rin) (hout : k.exchange outD = some Rout)
    (hRin : 0 < Rin) (hRout : 0 < Rout)
    (hN : 0 < k.feeParams.FeeN) (hND : k.feeParams.FeeN ≤ k.feeParams.FeeD)
    (hyR : y < Rout) :
    (∀ x, getInputAmount k y inD outD = .ok x →
        ∀ z, getOutputAmount k x inD outD = .ok z → y ≤ z)
      ∧ (buyInRange k.feeParams Rin Rout y →
          ∃ x, getInputAmount k y inD outD = .ok x
            ∧ (sellInRange k.feeParams Rin Rout x →
                ∃ z, getOutputAmount k x inD outD = .ok z ∧ y ≤ z)) := by
  have hD : 0 < k.feeParams.FeeD := lt_of_lt_of_le hN hND
  have key : ∀ x, getInputAmount k y inD outD = .ok x →
      ∀ z, getOutputAmount k x inD outD = .ok z → y ≤ z := by
    intro x hx z hz
    obtain ⟨_, rfl⟩ := getInputAmount_inv k y inD outD Rin Rout x hin hout hx
    obtain ⟨_, rfl⟩ := getOutputAmount_inv k _ inD outD Rin Rout z hin hout hz
    exact quote_buys_output Rin Rout _ _ y hRin hRout hN hND hyR
  refine ⟨key, fun hr => ?_⟩
  have hx := getInputAmount_ok k y inD outD Rin Rout hin hout hRin hRout hN hD hyR hr
  refine ⟨_, hx, fun hr' => ?_⟩
  obtain ⟨_, hc⟩ := buy_charge_lt Rin Rout _ _ y hRin hRout hN hD hyR
  have hz := getOutputAmount_ok k _ inD outD Rin Rout hin hout hc.le hRin hRout.le hN hD hr'
  exact ⟨_, hz, key _ hx _ hz⟩

/-- Witness for C19 on the scenario pool with `y = 100`: the quote is 1115 and
it buys at least 100. -/
theorem quoted_input_buys_output_witness :
    ∃ z, getOutputAmount scenarioKeeper 1115 "native" "token" = .ok z ∧ 100 ≤ z := by
  obtain ⟨_, h⟩ := quoted_input_buys_output scenarioKeeper "native" "token" 1000 1000 100
    rfl rfl (by decide) (by decide) (by decide) (by decide) (by decide)
  obtain ⟨x, hx, h'⟩ := h (by decide)
  have hx' : x = 1115 := by
    have h0 : getInputAmount scenarioKeeper 100 "native" "token" = .ok 1115 := rfl
    rw [h0] at hx
    exact (Except.ok.inj hx).symm
  subst hx'
  exact h' (by decide)

/-- C20: a sell can never drain the output reserve.  For positive reserves,
positive fee parameters and input amounts `0 ≤ x ≤ x'`: every amount `z` that
`getOutputAmount` returns for `x` satisfies `0 ≤ z < Rout`; amounts `z` and `z'`
returned for `x` and `x'` satisfy `z ≤ z'`; and both calls return when the
values formed for `x'` stay below `2 ^ 255`. -/
theorem getOutputAmount_bounded_monotone (k : Keeper) (inD outD : String)
    (Rin Rout x x' : Int)
    (hin : k.exchange inD = some Rin) (hout : k.exchange outD = some Rout)
    (hRin : 0 < Rin) (hRout : 0 < Rout)
    (hN : 0 < k.feeParams.FeeN) (hD : 0 < k.feeParams.FeeD)
    (hx : 0 ≤ x) (hxx : x ≤ x') :
    (∀ z, getOutputAmount k x inD outD = .ok z → 0 ≤ z ∧ z < Rout)
      ∧ (∀ z z', getOutputAmount k x inD outD = .ok z
          → getOutputAmount k x' inD outD = .ok z' → z ≤ z')
      ∧ (sellInRange k.feeParams Rin Rout x' →
          ∃ z z', getOutputAmount k x inD outD = .ok z
            ∧ getOutputAmount k x' inD outD = .ok z') := by
  refine ⟨fun z hz => ?_, fun z z' hz hz' => ?_, fun hr => ?_⟩
  · obtain ⟨_, rfl⟩ := getOutputAmount_inv k x inD outD Rin Rout z hin hout hz
    exact sell_lt_reserve Rin Rout _ _ x hRin hRout hN hD hx
  · obtain ⟨_, rfl⟩ := getOutputAmount_inv k x inD outD Rin Rout z hin hout hz
    obtain ⟨_, rfl⟩ := getOutputAmount_inv k x' inD outD Rin Rout z' hin hout hz'
    exact sell_monotone Rin Rout _ _ x x' hRin hRout hN hD hx hxx
  · exact ⟨_, _, getOutputAmount_ok k x inD outD Rin Rout hin hout hx hRin hRout.le hN hD
      (sellInRange_mono _ Rin Rout x x' hRout.le hN hxx hr),
      getOutputAmount_ok k x' inD outD Rin Rout hin hout (le_trans hx hxx) hRin hRout.le hN hD
        hr⟩

/-- Witness for C20 on the scenario pool with the inputs 100 and 200. -/
theorem getOutputAmount_bounded_monotone_witness :
    ∃ z z', getOutputAmount scenarioKeeper 100 "native" "token" = .ok z
      ∧ getOutputAmount scenarioKeeper 200 "native" "token" = .ok z'
      ∧ 0 ≤ z ∧ z < 1000 ∧ z ≤ z' := by
  obtain ⟨h1, h2, h3⟩ := getOutputAmount_bounded_monotone scenarioKeeper "native" "token"
    1000 1000 100 200 rfl rfl (by decide) (by decide) (by decide) (by decide) (by decide)
    (by decide)
  obtain ⟨z, z', hz, hz'⟩ := h3 (by decide)
  exact ⟨z, z', hz, hz', (h1 z hz).1, (h1 z hz).2, h2 z z' hz hz'⟩

/-! ## Swap orders -/

/-- C5: for a buy order whose price `GetInputAmount` computes as `c`,
`HandleMsgSwapOrder` returns the invalid-bound error if and only if `c` is
strictly greater than the sender's maximum input `msg.Input.Amount`; when it
returns that error the keeper, and with it every coin balance, is unchanged. -/
theorem buy_order_invalid_bound_iff (p : SwapPricing) (msg : MsgSwapOrder) (k : Keeper)
    (c : Int) (hbuy : msg.IsBuyOrder = true)
    (hc : p.GetInputAmount k msg.SwapDenom msg.Amount = .ok c) :
    ((∃ k', HandleMsgSwapOrder p msg k = .ok (Result.failure SdkError.InvalidBound, k'))
        ↔ msg.Input.Amount < c)
      ∧ (∀ k', HandleMsgSwapOrder p msg k = .ok (Result.failure SdkError.InvalidBound, k')
          → k' = k) := by
  unfold HandleMsgSwapOrder
  simp only [hbuy, hc, if_true, Except.bind]
  by_cases h : msg.Input.Amount < c
  · simp only [if_pos h]
    refine ⟨⟨fun _ => h, fun _ => ⟨k, rfl⟩⟩, fun k' hk => ?_⟩
    have := Except.ok.inj hk
    exact (Prod.mk.inj this).2.symm
  · simp only [if_neg h]
    have hno : ∀ k', ¬ ((NewCoin msg.Input.Denom (some c)).bind fun coin =>
        (NewCoins [coin]).bind fun coins =>
          (NewCoins [msg.Output]).bind fun out =>
            Except.ok (Result.empty,
              ((k.SendCoinsFromAccountToModule msg.Sender ModuleName
                coins).1.SendCoinsFromModuleToAccount ModuleName msg.Sender out).1))
        = .ok (Result.failure SdkError.InvalidBound, k') := by
      intro k' hk
      simp only [bind_eq_ok] at hk
      obtain ⟨_, _, _, _, _, _, hk⟩ := hk
      have := (Prod.mk.inj (Except.ok.inj hk)).1
      exact absurd this (by simp)
    exact ⟨⟨fun ⟨k', hk⟩ => absurd hk (hno k'), fun hlt => absurd hlt h⟩,
      fun k' hk => absurd hk (hno k')⟩

/-- Witness for C5: on the scenario pool buying 100 tokens costs 1115, above a
maximum of 1000. -/
theorem buy_order_invalid_bound_iff_witness :
    ((∃ k', HandleMsgSwapOrder reservePricing (buyOrder 1000) scenarioKeeper
          = .ok (Result.failure SdkError.InvalidBound, k'))
        ↔ (buyOrder 1000).Input.Amount < 1115)
      ∧ (∀ k', HandleMsgSwapOrder reservePricing (buyOrder 1000) scenarioKeeper
            = .ok (Result.failure SdkError.InvalidBound, k')
          → k' = scenarioKeeper) :=
  buy_order_invalid_bound_iff reservePricing (buyOrder 1000) scenarioKeeper 1115 rfl rfl

/-- C6: for a sell order whose proceeds `GetOutputAmount` computes as `c`,
`HandleMsgSwapOrder` returns the invalid-bound error if and only if `c` is
strictly less than the sender's minimum output `msg.Output.Amount`; when it
returns that error the keeper, and with it every coin balance, is unchanged. -/
theorem sell_order_invalid_bound_iff (p : SwapPricing) (msg : MsgSwapOrder) (k : Keeper)
    (c : Int) (hsell : msg.IsBuyOrder = false)
    (hc : p.GetOutputAmount k msg.SwapDenom msg.Amount = .ok c) :
    ((∃ k', HandleMsgSwapOrder p msg k = .ok (Result.failure SdkError.InvalidBound, k'))
        ↔ c < msg.Output.Amount)
      ∧ (∀ k', HandleMsgSwapOrder p msg k = .ok (Result.failure SdkError.InvalidBound, k')
          → k' = k) := by
  unfold HandleMsgSwapOrder
  simp only [hsell, hc, Bool.false_eq_true, if_false, Except.bind]
  by_cases h : msg.Output.Amount > c
  · simp only [if_pos h]
    refine ⟨⟨fun _ => h, fun _ => ⟨k, rfl⟩⟩, fun k' hk => ?_⟩
    have := Except.ok.inj hk
    exact (Prod.mk.inj this).2.symm
  · simp only [if_neg h]
    have hno : ∀ k', ¬ ((NewCoins [msg.Input]).bind fun coins =>
        (NewCoin msg.Output.Denom none).bind fun coin =>
          (NewCoins [coin]).bind fun out =>
            Except.ok (Result.empty,
              ((k.SendCoinsFromAccountToModule msg.Sender ModuleName
                coins).1.SendCoinsFromModuleToAccount ModuleName msg.Sender out).1))
        = .ok (Result.failure SdkError.InvalidBound, k') := by
      intro k' hk
      simp only [bind_eq_ok] at hk
      obtain ⟨_, _, _, _, _, _, hk⟩ := hk
      have := (Prod.mk.inj (Except.ok.inj hk)).1
      exact absurd this (by simp)
    exact ⟨⟨fun ⟨k', hk⟩ => absurd hk (hno k'), fun hlt => absurd hlt h⟩,
      fun k' hk => absurd hk (hno k')⟩

/-- Witness for C6: on the scenario pool selling 100 yields 90, below a minimum
of 95. -/
theorem sell_order_invalid_bound_iff_witness :
    ((∃ k', HandleMsgSwapOrder reservePricing (sellOrder 95) fundedKeeper
          = .ok (Result.failure SdkError.InvalidBound, k'))
        ↔ 90 < (sellOrder 95).Output.Amount)
      ∧ (∀ k', HandleMsgSwapOrder reservePricing (sellOrder 95) fundedKeeper
            = .ok (Result.failure SdkError.InvalidBound, k')
          → k' = fundedKeeper) :=
  sell_order_invalid_bound_iff reservePricing (sellOrder 95) fundedKeeper 90 rfl rfl

/-- C7: evaluation at the failing input.  Address 1 holds no coins and sends a
buy order within its bound (price 1115, maximum 2000).  The transfer of 1115
native coins to the module account fails, yet the handler still sends the 100
tokens from the module account to address 1 and returns the empty success
result. -/
theorem buy_order_ignores_failed_transfer :
    NewCoin "native" (some 1115) = .ok ⟨"native", 1115⟩
      ∧ NewCoins [⟨"native", 1115⟩] = .ok [⟨"native", 1115⟩]
      ∧ (scenarioKeeper.SendCoinsFromAccountToModule 1 ModuleName
          [⟨"native", 1115⟩]).2 = some SdkError.InsufficientCoins
      ∧ ∃ k', HandleMsgSwapOrder reservePricing (buyOrder 2000) scenarioKeeper
            = .ok (Result.empty, k')
        ∧ k'.supply (Account.addr 1) "native" = 0
        ∧ k'.supply (Account.module "uniswap") "native" = 1000
        ∧ k'.supply (Account.addr 1) "token" = 100
        ∧ k'.supply (Account.module "uniswap") "token" = 900 :=
  ⟨rfl, rfl, rfl, _, rfl, rfl, rfl, rfl, rfl⟩

/-- C8: evaluation at the failing input.  Address 1 sells 100 native coins for
at least 80 tokens on the scenario pool; `GetOutputAmount` computes 90, within
the bound.  The coin to send back is built from `calculatedAmount`, which the
sell branch never assigns, so `sdk.NewCoin` panics: the order is aborted and
the 90 tokens are never sent. -/
theorem sell_order_sends_unassigned_amount :
    reservePricing.GetOutputAmount fundedKeeper "token" 100 = .ok 90
      ∧ ¬ (sellOrder 80).Output.Amount > 90
      ∧ HandleMsgSwapOrder reservePricing (sellOrder 80) fundedKeeper
          = .error "runtime error: invalid memory address or nil pointer dereference" :=
  ⟨rfl, by decide, rfl⟩

/-! ## Buying at or beyond the output reserve -/

/-- `sdk.NewCoin` panics on a negative amount. -/
theorem NewCoin_neg (denom : String) (c : Int) (hc : c < 0) :
    ∃ e, NewCoin denom (some c) = .error e := by
  unfold NewCoin
  by_cases hv : validateDenom denom = true
  · exact ⟨"negative coin amount", by simp only [hv, if_true, if_pos hc]⟩
  · exact ⟨"invalid denom", by simp only [hv, Bool.false_eq_true, if_false]⟩

/-- Value of `getInputAmount` on stored reserves up to the division, when the
products and the difference fit an `sdk.Int`. -/
theorem getInputAmount_eval (k : Keeper) (y : Int) (inD outD : String) (Rin Rout : Int)
    (hin : k.exchange inD = some Rin) (hout : k.exchange outD = some Rout)
    (hRin : 0 < Rin) (hRout : 0 < Rout)
    (hN : 0 < k.feeParams.FeeN) (hD : 0 < k.feeParams.FeeD)
    (hnum : Rin * Rout * k.feeParams.FeeD + 1 < 2 ^ 255)
    (hN' : k.feeParams.FeeN < 2 ^ 255)
    (hsub : (Rout - y).natAbs < 2 ^ 255)
    (hden : ((Rout - y) * k.feeParams.FeeN).natAbs < 2 ^ 255) :
    getInputAmount k y inD outD
      = (Quo (Rin * Rout * k.feeParams.FeeD) ((Rout - y) * k.feeParams.FeeN)).bind
          fun q => sdk.Add q 1 := by
  have hRR : 0 < Rin * Rout := by positivity
  have hRR' : Rin * Rout < 2 ^ 255 := by nlinarith
  have hRin' : Rin < 2 ^ 255 := by nlinarith
  have hRout' : Rout < 2 ^ 255 := by nlinarith
  have hD' : k.feeParams.FeeD < 2 ^ 255 := by nlinarith
  unfold getInputAmount
  simp only [GetExchange_some k inD Rin hin, GetExchange_some k outD Rout hout]
  rw [Mul_ok_nonneg Rin Rout hRin.le hRout.le hRin' hRout' hRR']
  simp only [Except.bind]
  rw [Mul_ok_nonneg _ _ hRR.le hD.le hRR' hD' (by linarith)]
  simp only [Except.bind]
  rw [Sub_ok _ _ hsub]
  simp only [Except.bind]
  rw [Mul_ok _ _ hsub (natAbs_lt_of_nonneg _ hN.le hN') hden]

/-- C9 (as stated) fails: on the scenario pool, asking for the whole output
reserve (1000) makes `getInputAmount` panic on a zero divisor, and asking for
2000 makes it return the amount `-1002`; the buy orders for these amounts
panic in `HandleMsgSwapOrder`, on the zero divisor and on the negative coin
amount, and no liquidity error is returned. -/
theorem getInputAmount_lacks_liquidity_check :
    getInputAmount scenarioKeeper 1000 "native" "token" = .error "Division by zero"
      ∧ getInputAmount scenarioKeeper 2000 "native" "token" = .ok (-1002)
      ∧ HandleMsgSwapOrder reservePricing (buyTokens 1000 2000) fundedKeeper
          = .error "Division by zero"
      ∧ (¬ (buyTokens 2000 2000).Input.Amount < -1002)
      ∧ ∃ e, HandleMsgSwapOrder reservePricing (buyTokens 2000 2000) fundedKeeper = .error e :=
  ⟨rfl, rfl, rfl, by decide, _, rfl⟩

/-- C9 (amended): for positive reserves `(Rin, Rout)` of the native asset and
the bought denomination, positive fee parameters and values within the range
of an `sdk.Int`, there is no liquidity check.  Asking for `Rout` makes
`getInputAmount`, and the buy order through `HandleMsgSwapOrder`, panic on the
zero divisor.  Asking for `y > Rout` makes `getInputAmount` return the
truncated quotient plus one, an amount of at most 1; when that amount is
negative and within the sender's bound the buy order panics in `sdk.NewCoin`. -/
theorem getInputAmount_beyond_reserve (k : Keeper) (order : MsgSwapOrder) (y : Int)
    (outD : String) (Rin Rout : Int)
    (hin : k.exchange NativeAsset = some Rin) (hout : k.exchange outD = some Rout)
    (hRin : 0 < Rin) (hRout : 0 < Rout)
    (hN : 0 < k.feeParams.FeeN) (hD : 0 < k.feeParams.FeeD) (hy : Rout < y)
    (hnum : Rin * Rout * k.feeParams.FeeD + 1 < 2 ^ 255)
    (hN' : k.feeParams.FeeN < 2 ^ 255)
    (hden : (y - Rout) * k.feeParams.FeeN < 2 ^ 255) :
    getInputAmount k Rout NativeAsset outD = .error "Division by zero"
      ∧ HandleMsgSwapOrder reservePricing
          { order with SwapDenom := outD, Amount := Rout, IsBuyOrder := true } k
          = .error "Division by zero"
      ∧ getInputAmount k y NativeAsset outD
          = .ok (Int.tdiv (Rin * Rout * k.feeParams.FeeD) ((Rout - y) * k.feeParams.FeeN) + 1)
      ∧ Int.tdiv (Rin * Rout * k.feeParams.FeeD) ((Rout - y) * k.feeParams.FeeN) + 1 ≤ 1
      ∧ (Int.tdiv (Rin * Rout * k.feeParams.FeeD) ((Rout - y) * k.feeParams.FeeN) + 1 < 0 →
          Int.tdiv (Rin * Rout * k.feeParams.FeeD) ((Rout - y) * k.feeParams.FeeN) + 1
            ≤ order.Input.Amount →
          ∃ e, HandleMsgSwapOrder reservePricing
            { order with SwapDenom := outD, Amount := y, IsBuyOrder := true } k
            = .error e) := by
  have hnum0 : 0 ≤ Rin * Rout * k.feeParams.FeeD := by positivity
  have h0 : getInputAmount k Rout NativeAsset outD = .error "Division by zero" := by
    rw [getInputAmount_eval k Rout NativeAsset outD Rin Rout hin hout hRin hRout hN hD hnum hN'
      (by simp) (by simp)]
    simp [Quo, Except.bind]
  have hyR : 0 < y - Rout := by omega
  have hyN : 0 < (y - Rout) * k.feeParams.FeeN := by positivity
  have hneg : (Rout - y) * k.feeParams.FeeN = -((y - Rout) * k.feeParams.FeeN) := by ring
  have hsub' : y - Rout < 2 ^ 255 := by nlinarith
  have hden0 : (Rout - y) * k.feeParams.FeeN < 0 := by omega
  have hq0 : Int.tdiv (Rin * Rout * k.feeParams.FeeD) ((Rout - y) * k.feeParams.FeeN) ≤ 0 :=
    Int.tdiv_nonpos hnum0 hden0.le
  have hq1 : -(Rin * Rout * k.feeParams.FeeD)
      ≤ Int.tdiv (Rin * Rout * k.feeParams.FeeD) ((Rout - y) * k.feeParams.FeeN) := by
    rw [hneg, Int.tdiv_neg, Int.tdiv_eq_ediv hnum0 hyN.le]
    have := Int.ediv_le_self ((y - Rout) * k.feeParams.FeeN) hnum0
    omega
  have h1 : getInputAmount k y NativeAsset outD
      = .ok (Int.tdiv (Rin * Rout * k.feeParams.FeeD) ((Rout - y) * k.feeParams.FeeN) + 1) := by
    rw [getInputAmount_eval k y NativeAsset outD Rin Rout hin hout hRin hRout hN hD hnum hN'
      (by omega) (by omega), Quo_ok _ _ hden0.ne]
    simp only [Except.bind]
    exact Add_ok _ _ (by omega)
  refine ⟨h0, ?_, h1, by omega, fun hc hb => ?_⟩
  · unfold HandleMsgSwapOrder
    simp only [if_true, reservePricing, h0, Except.bind]
  · obtain ⟨e, he⟩ := NewCoin_neg order.Input.Denom _ hc
    refine ⟨e, ?_⟩
    unfold HandleMsgSwapOrder
    simp only [if_true, reservePricing, h1, Except.bind, if_neg (not_lt.mpr hb), he]

/-- Witness for C9 (amended) on the scenario pool with `y = 2000` and a maximum
input of 2000. -/
theorem getInputAmount_beyond_reserve_witness :
    getInputAmount fundedKeeper 1000 NativeAsset "token" = .error "Division by zero"
      ∧ HandleMsgSwapOrder reservePricing
          { buyTokens 2000 2000 with SwapDenom := "token", Amount := 1000, IsBuyOrder := true }
          fundedKeeper = .error "Division by zero"
      ∧ getInputAmount fundedKeeper 2000 NativeAsset "token"
          = .ok (Int.tdiv (1000 * 1000 * 1000) ((1000 - 2000) * 997) + 1)
      ∧ Int.tdiv (1000 * 1000 * 1000) ((1000 - 2000) * 997) + 1 ≤ 1
      ∧ ∃ e, HandleMsgSwapOrder reservePricing
          { buyTokens 2000 2000 with SwapDenom := "token", Amount := 2000, IsBuyOrder := true }
          fundedKeeper = .error e := by
  obtain ⟨h1, h2, h3, h4, h5⟩ := getInputAmount_beyond_reserve fundedKeeper
    (buyTokens 2000 2000) 2000 "token" 1000 1000 rfl rfl (by decide) (by decide) (by decide)
    (by decide) (by decide) (by decide) (by decide) (by decide)
  exact ⟨h1, h2, h3, h4, h5 (by decide) (by decide)⟩

/-! ## Evaluation of the liquidity handlers -/

/-- A coin returned by `sdk.NewCoin` carries the denomination and the amount
given, and the amount is not negative. -/
theorem NewCoin_inv (denom : String) (a : Int) (c : Coin)
    (h : NewCoin denom (some a) = .ok c) : c = ⟨denom, a⟩ ∧ 0 ≤ a := by
  unfold NewCoin at h
  split_ifs at h with hv
  dsimp only at h
  split_ifs at h with ha
  exact ⟨(Except.ok.inj h).symm, not_lt.mp ha⟩

/-- `sdk.NewCoin` returns the coin for an accepted denomination and a
non-negative amount. -/
theorem NewCoin_ok (denom : String) (a : Int) (hv : validateDenom denom = true)
    (ha : 0 ≤ a) : NewCoin denom (some a) = .ok ⟨denom, a⟩ := by
  unfold NewCoin
  simp only [hv, if_true, if_neg (not_lt.mpr ha)]

/-- What a returning call of `HandleMsgAddLiquidity` has computed: the native
reserve `R` is stored and not zero, the share total `T` is stored, the amount
`m` is the truncated quotient `T * DepositAmount / R`, the coins passed
`sdk.NewCoins`, and either the transfer failed and nothing was written, or it
succeeded and the total and the balance at the scope's address were written. -/
theorem addLiquidity_inv (s : DepositScope) (msg : MsgAddLiquidity) (k : Keeper)
    (res : Result) (k' : Keeper) (h : HandleMsgAddLiquidity s msg k = .ok (res, k')) :
    ∃ R T coins, k.exchange NativeAsset = some R ∧ R ≠ 0 ∧ k.totalUNI = some T
      ∧ 0 ≤ msg.DepositAmount
      ∧ NewCoins [⟨NativeAsset, msg.DepositAmount⟩,
          s.coinDeposited (Int.tdiv (T * msg.DepositAmount) R)] = .ok coins
      ∧ ((∃ e, SendCoins k.supply (Account.addr msg.Sender) (Account.module ModuleName) coins
              = .error e
            ∧ res = Result.failure e ∧ k'.totalUNI = some T ∧ k'.UNI = k.UNI
            ∧ k'.supply = k.supply)
        ∨ (∃ b, SendCoins k.supply (Account.addr msg.Sender) (Account.module ModuleName) coins
              = .ok b
            ∧ res = Result.empty
            ∧ k'.totalUNI = some (T + Int.tdiv (T * msg.DepositAmount) R)
            ∧ k'.UNI = (fun a => if a = s.holder
                then k.UNI msg.Sender + Int.tdiv (T * msg.DepositAmount) R else k.UNI a)
            ∧ k'.supply = b)) := by
  unfold HandleMsgAddLiquidity at h
  dsimp only at h
  generalize hk0 : (if (k.GetExchange msg.Deposit.Denom).2 = true
    then k.CreateExchange msg.Denom else k) = k0 at h
  have hk0' : k0 = k ∨ k0 = k.CreateExchange msg.Denom := by
    rw [← hk0]
    split_ifs
    · exact Or.inr rfl
    · exact Or.inl rfl
  have htot : k0.totalUNI = k.totalUNI := by
    rcases hk0' with rfl | rfl <;> rfl
  have huni : k0.UNI = k.UNI := by
    rcases hk0' with rfl | rfl <;> rfl
  have hsup : k0.supply = k.supply := by
    rcases hk0' with rfl | rfl <;> rfl
  cases hn : k0.exchange NativeAsset with
  | none => simp [Keeper.GetExchange, hn] at h
  | some R =>
    cases ht : k0.totalUNI with
    | none => simp [Keeper.GetExchange, Keeper.GetTotalUNI, hn, ht] at h
    | some T =>
      simp only [Keeper.GetExchange, Keeper.GetTotalUNI, hn, ht, Bool.false_eq_true,
        if_false, bind_eq_ok] at h
      obtain ⟨m, ⟨t, ht1, hq⟩, cd, ⟨t', ht1', hq'⟩, nc, hnc, ec, _, coins, hcoins, hrest⟩ := h
      have e1 := Mul_inv _ _ _ ht1
      have e2 := Mul_inv _ _ _ ht1'
      subst e1 e2
      obtain ⟨hR, hm⟩ := Quo_inv _ _ _ hq
      obtain ⟨_, hcd⟩ := Quo_inv _ _ _ hq'
      subst hm hcd
      obtain ⟨hnc', hdep⟩ := NewCoin_inv _ _ _ hnc
      subst hnc'
      have hnat : k.exchange NativeAsset = some R := by
        rcases hk0' with rfl | rfl
        · exact hn
        · simp only [Keeper.CreateExchange] at hn
          split_ifs at hn with hd
          · exact absurd (Option.some.inj hn).symm hR
          · exact hn
      rw [htot] at ht
      refine ⟨R, T, coins, hnat, hR, ht, hdep, hcoins, ?_⟩
      unfold Keeper.SendCoinsFromAccountToModule at hrest
      rw [hsup] at hrest
      cases hs : SendCoins k.supply (Account.addr msg.Sender) (Account.module ModuleName)
          coins with
      | error e =>
        simp only [hs] at hrest
        obtain ⟨h1, h2⟩ := Prod.mk.inj (Except.ok.inj hrest)
        subst h1 h2
        exact Or.inl ⟨e, rfl, rfl, by rw [htot, ht], huni, hsup⟩
      | ok b =>
        simp only [hs, bind_eq_ok] at hrest
        obtain ⟨tot, htot', bal, hbal, hrest⟩ := hrest
        have e3 := Add_inv _ _ _ htot'
        have e4 := Add_inv _ _ _ hbal
        obtain ⟨h1, h2⟩ := Prod.mk.inj (Except.ok.inj hrest)
        subst h1 h2 e3 e4
        refine Or.inr ⟨b, rfl, rfl, rfl, ?_, rfl⟩
        simp only [Keeper.SetUNIForAddress, Keeper.SetTotalUNI, Keeper.GetUNIForAddress, huni]

/-- Outcome of `HandleMsgAddLiquidity` on a stored pool when the share amount
fits an `sdk.Int`, the coins pass the constructors and the transfer succeeds. -/
theorem addLiquidity_eval (s : DepositScope) (msg : MsgAddLiquidity) (k : Keeper)
    (P R T : Int) (coins : List Coin) (b : Bank)
    (hpool : k.exchange msg.Deposit.Denom = some P)
    (hnat : k.exchange NativeAsset = some R) (hR : 0 < R)
    (htot : k.totalUNI = some T) (hT : 0 < T) (hamt : 0 ≤ msg.DepositAmount)
    (hmul : T * msg.DepositAmount < 2 ^ 255)
    (hdenom : validateDenom msg.Deposit.Denom = true)
    (hcoins : NewCoins [⟨NativeAsset, msg.DepositAmount⟩,
        s.coinDeposited (Int.tdiv (T * msg.DepositAmount) R)] = .ok coins)
    (hsend : SendCoins k.supply (Account.addr msg.Sender) (Account.module ModuleName) coins
        = .ok b)
    (hsum : T + Int.tdiv (T * msg.DepositAmount) R < 2 ^ 255)
    (hbal : (k.UNI msg.Sender + Int.tdiv (T * msg.DepositAmount) R).natAbs < 2 ^ 255) :
    ∃ k', HandleMsgAddLiquidity s msg k = .ok (Result.empty, k')
      ∧ k'.totalUNI = some (T + Int.tdiv (T * msg.DepositAmount) R)
      ∧ k'.supply = b := by
  have hq0 : 0 ≤ Int.tdiv (T * msg.DepositAmount) R :=
    Int.tdiv_nonneg (by positivity) hR.le
  have hT' : T < 2 ^ 255 := by omega
  have hdep' : msg.DepositAmount < 2 ^ 255 := by nlinarith
  unfold HandleMsgAddLiquidity
  simp only [Keeper.GetExchange, hpool, hnat, Keeper.GetTotalUNI, htot, Bool.false_eq_true,
    if_false]
  rw [Mul_ok_nonneg T _ hT.le hamt hT' hdep' hmul]
  simp only [Except.bind]
  rw [Quo_ok _ _ hR.ne']
  simp only [Except.bind]
  rw [NewCoin_ok NativeAsset _ rfl hamt, NewCoin_ok _ _ hdenom hq0]
  simp only [Except.bind]
  rw [hcoins]
  simp only [Except.bind, Keeper.SendCoinsFromAccountToModule, hsend]
  rw [Add_ok _ _ (natAbs_lt_of_nonneg _ (by omega) hsum)]
  simp only [Except.bind, Keeper.GetUNIForAddress, Keeper.SetTotalUNI]
  rw [Add_ok _ _ hbal]
  exact ⟨_, rfl, rfl, rfl⟩

/-- Outcome of `HandleMsgRemoveLiquidity` on a stored pool when the amounts are
computed, the coins pass the constructors, the transfer succeeds and the
updated share amounts fit an `sdk.Int`. -/
theorem removeLiquidity_eval (s : PackageScope) (msg : MsgRemoveLiquidity) (k : Keeper)
    (P R T nw cw : Int) (coins : List Coin) (b : Bank)
    (hpool : k.exchange msg.Withdraw.Denom = some P)
    (hnat : k.exchange NativeAsset = some R)
    (htot : k.totalUNI = some T)
    (hnw : ((sdk.Mul msg.WithdrawAmount R).bind fun t => Quo t T) = .ok nw)
    (hcw : ((sdk.Mul msg.WithdrawAmount P).bind fun t => Quo t T) = .ok cw)
    (hnc : NewCoin s.nativeDenom (some nw) = .ok ⟨s.nativeDenom, nw⟩)
    (hec : NewCoin msg.Withdraw.Denom (some cw) = .ok ⟨msg.Withdraw.Denom, cw⟩)
    (hcoins : NewCoins [⟨s.nativeDenom, nw⟩, s.coinDeposited] = .ok coins)
    (hsend : SendCoins k.supply (Account.module ModuleName) (Account.addr msg.Sender) coins
        = .ok b)
    (hsum : (T + s.MintedUNI).natAbs < 2 ^ 255)
    (hbal : (k.UNI msg.Sender + s.MintedUNI).natAbs < 2 ^ 255) :
    HandleMsgRemoveLiquidity s msg k
      = .ok (Result.empty,
          { k with
            supply := b
            totalUNI := some (T + s.MintedUNI)
            UNI := fun a => if a = s.holder then k.UNI msg.Sender + s.MintedUNI else k.UNI a }) := by
  unfold HandleMsgRemoveLiquidity
  simp only [Keeper.GetExchange, hpool, hnat, Keeper.GetTotalUNI, htot, Bool.false_eq_true,
    if_false]
  rw [hnw, hcw]
  simp only [Except.bind]
  rw [hnc, hec]
  simp only [Except.bind]
  rw [hcoins]
  simp only [Except.bind, Keeper.SendCoinsFromModuleToAccount, hsend]
  rw [Add_ok _ _ hsum]
  simp only [Except.bind, Keeper.GetUNIForAddress, Keeper.SetTotalUNI]
  rw [Add_ok _ _ hbal]
  rfl

/-! ## Adding liquidity -/

/-- C10 (as stated) fails: the pool holds 1000 native coins and 500 shares and
address 1 holds `2 ^ 254` of each asset; a deposit of `2 ^ 250` native coins
should mint `2 ^ 249` shares, but the product `500 * 2 ^ 250` does not fit an
`sdk.Int` and the handler panics with `Int overflow`. -/
theorem addLiquidity_overflow_counterexample :
    whaleKeeper.exchange NativeAsset = some 1000
      ∧ whaleKeeper.totalUNI = some 500
      ∧ whaleKeeper.supply (Account.addr 1) "native" = 2 ^ 254
      ∧ whaleKeeper.supply (Account.addr 1) "token" = 2 ^ 254
      ∧ Int.tdiv (2 ^ 250 * 500) 1000 = 2 ^ 249
      ∧ HandleMsgAddLiquidity tokenScope hugeDeposit whaleKeeper = .error "Int overflow" :=
  ⟨rfl, rfl, rfl, rfl, by decide, rfl⟩

/-- C10 (amended): for a non-empty pool (native reserve `R > 0`, total shares
`T > 0`) and a deposit of `nativeAmount ≥ 0`, the amount `m` is
`floor(nativeAmount * T / R)`.  Every call of `HandleMsgAddLiquidity` that
returns success has raised the stored share total by exactly `m`, and every
call that returns an error has left it unchanged.  The call returns success
when the exchange of the deposited denomination is stored, `T * nativeAmount`
and the new share amounts stay below `2 ^ 255`, the coins pass the SDK's
constructors and the deposit transfer succeeds. -/
theorem addLiquidity_minted_eq_floor (s : DepositScope) (msg : MsgAddLiquidity) (k : Keeper)
    (R T : Int)
    (hnat : k.exchange NativeAsset = some R) (hR : 0 < R)
    (htot : k.totalUNI = some T) (hT : 0 < T) (hamt : 0 ≤ msg.DepositAmount) :
    ∃ m, m = ⌊((msg.DepositAmount * T : Int) : ℚ) / ((R : Int) : ℚ)⌋
      ∧ m = Int.tdiv (T * msg.DepositAmount) R
      ∧ (∀ res k', HandleMsgAddLiquidity s msg k = .ok (res, k') →
          (res = Result.empty → k'.totalUNI = some (T + m))
          ∧ (res ≠ Result.empty → k'.totalUNI = some T))
      ∧ (∀ P coins b, k.exchange msg.Deposit.Denom = some P →
          T * msg.DepositAmount < 2 ^ 255 →
          validateDenom msg.Deposit.Denom = true →
          NewCoins [⟨NativeAsset, msg.DepositAmount⟩, s.coinDeposited m] = .ok coins →
          SendCoins k.supply (Account.addr msg.Sender) (Account.module ModuleName) coins
            = .ok b →
          T + m < 2 ^ 255 →
          (k.UNI msg.Sender + m).natAbs < 2 ^ 255 →
          ∃ k', HandleMsgAddLiquidity s msg k = .ok (Result.empty, k')
            ∧ k'.totalUNI = some (T + m)) := by
  have hnum : 0 ≤ T * msg.DepositAmount := by positivity
  refine ⟨Int.tdiv (T * msg.DepositAmount) R, ?_, rfl, fun res k' h => ?_,
    fun P coins b hpool hmul hdenom hcoins hsend hsum hbal => ?_⟩
  · rw [tdiv_eq_floor _ _ hnum hR, mul_comm T]
  · obtain ⟨R', T', coins, hnat', _, htot', _, _, hcase⟩ := addLiquidity_inv s msg k res k' h
    rw [hnat] at hnat'
    rw [htot] at htot'
    obtain rfl := Option.some.inj hnat'
    obtain rfl := Option.some.inj htot'
    rcases hcase with ⟨e, _, hres, ht, _, _⟩ | ⟨b, _, hres, ht, _, _⟩
    · exact ⟨fun he => by rw [hres] at he; exact absurd he (by simp), fun _ => ht⟩
    · exact ⟨fun _ => ht, fun hne => absurd hres hne⟩
  · obtain ⟨k', hk, ht, _⟩ := addLiquidity_eval s msg k P R T coins b hpool hnat hR htot hT hamt
      hmul hdenom hcoins hsend hsum hbal
    exact ⟨k', hk, ht⟩

/-- Witness for C10 (amended): address 1 deposits 100 native coins into the
scenario pool (reserve 1000, 500 shares); 50 shares are minted. -/
theorem addLiquidity_minted_eq_floor_witness :
    ∃ k', HandleMsgAddLiquidity tokenScope depositOrder fundedKeeper = .ok (Result.empty, k')
      ∧ k'.totalUNI = some (500 + 50) := by
  obtain ⟨m, _, hm, _, h⟩ := addLiquidity_minted_eq_floor tokenScope depositOrder fundedKeeper
    1000 500 rfl (by decide) rfl (by decide) (by decide)
  have hm' : m = 50 := hm.trans (by decide)
  subst hm'
  exact h 1000 _ _ rfl (by decide) rfl rfl rfl (by decide) (by decide)

/-- C11: evaluation at the failing input.  On the scenario pool (reserves 1000
native and 1000 token, 500 shares) a deposit of 100 native coins takes 50
tokens from the sender, the amount it mints, while
`ceil(100 * 1000 / 1000)` is 100. -/
theorem addLiquidity_paired_amount_counterexample :
    (∃ k', HandleMsgAddLiquidity tokenScope depositOrder fundedKeeper = .ok (Result.empty, k')
        ∧ k'.supply (Account.addr 1) "token" = 5000 - 50
        ∧ k'.supply (Account.module "uniswap") "token" = 1000 + 50
        ∧ k'.totalUNI = some (500 + 50))
      ∧ ⌈((100 * 1000 : Int) : ℚ) / ((1000 : Int) : ℚ)⌉ = 100 := by
  refine ⟨⟨_, rfl, rfl, rfl, rfl⟩, ?_⟩
  rw [Int.ceil_eq_iff]
  norm_num

/-! ## The first deposit -/

/-- C12: evaluation at the failing input.  Depositing `(500, 500)` into an
exchange stored with zero reserves and zero shares panics on the division by
the zero native reserve; on a keeper in which nothing was stored the handler
creates the exchange and then panics because the native exchange is missing.
No shares are minted in either case. -/
theorem addLiquidity_empty_pool_panics (s : DepositScope) :
    HandleMsgAddLiquidity s initialDeposit emptyKeeper = .error "Division by zero"
      ∧ HandleMsgAddLiquidity s initialDeposit freshKeeper
          = .error "error retrieving native asset total liquidity" :=
  ⟨rfl, rfl⟩

/-! ## Removing liquidity -/

/-- C13: evaluation at the failing input.  Address 1 burns 100 of the 500 shares
of the scenario pool (reserves 1000 and 1000); the paired amount
`coinWithdrawn` is `100 * 1000 / 500 = 200`.  The handler sends the 200 native
coins, but the paired coin it sends is `coinDeposited`: with `coinDeposited`
worth 0 tokens the sender receives 0 tokens, with 7 tokens it receives 7. -/
theorem removeLiquidity_sends_coinDeposited :
    Quo (100 * 1000) 500 = .ok 200
      ∧ (∃ k', HandleMsgRemoveLiquidity (scopeWith 0 0) (withdrawOrder 100) shareKeeper
            = .ok (Result.empty, k')
          ∧ k'.supply (Account.addr 1) "native" = 200
          ∧ k'.supply (Account.addr 1) "token" = 0
          ∧ k'.supply (Account.module "uniswap") "token" = 1000)
      ∧ (∃ k', HandleMsgRemoveLiquidity (scopeWith 7 0) (withdrawOrder 100) shareKeeper
            = .ok (Result.empty, k')
          ∧ k'.supply (Account.addr 1) "native" = 200
          ∧ k'.supply (Account.addr 1) "token" = 7
          ∧ k'.supply (Account.module "uniswap") "token" = 993) :=
  ⟨rfl, ⟨_, rfl, rfl, rfl, rfl⟩, ⟨_, rfl, rfl, rfl, rfl⟩⟩

/-- C14: evaluation at the failing input.  Address 1 burns all 500 shares of the
scenario pool, and `coinDeposited` is taken as the whole paired reserve.  Both
reserves leave the module account, yet for every value `m` of `MintedUNI` that
keeps `500 + m` within an `sdk.Int` the stored share total is `500 + m` and
the balance of address 1 is `500 + m`. -/
theorem removeLiquidity_all_shares_keeps_supply (m : Int)
    (hm : (500 + m).natAbs < 2 ^ 255) :
    ∃ k', HandleMsgRemoveLiquidity (scopeWith 1000 m) (withdrawOrder 500) shareKeeper
        = .ok (Result.empty, k')
      ∧ k'.supply (Account.module "uniswap") "native" = 0
      ∧ k'.supply (Account.module "uniswap") "token" = 0
      ∧ k'.totalUNI = some (500 + m)
      ∧ k'.UNI 1 = 500 + m :=
  ⟨_, removeLiquidity_eval (scopeWith 1000 m) (withdrawOrder 500) shareKeeper 1000 1000 500
    1000 1000 _ _ rfl rfl rfl rfl rfl rfl rfl rfl rfl hm hm, rfl, rfl, rfl, rfl⟩

/-- Witness for C14: with `MintedUNI = 0` the share total stays at 500 after all
500 shares were burned. -/
theorem removeLiquidity_all_shares_keeps_supply_witness :
    ∃ k', HandleMsgRemoveLiquidity (scopeWith 1000 0) (withdrawOrder 500) shareKeeper
        = .ok (Result.empty, k')
      ∧ k'.supply (Account.module "uniswap") "native" = 0
      ∧ k'.supply (Account.module "uniswap") "token" = 0
      ∧ k'.totalUNI = some (500 + 0)
      ∧ k'.UNI 1 = 500 + 0 :=
  removeLiquidity_all_shares_keeps_supply 0 (by decide)

/-- C15: evaluation at the failing input.  For every value `m` of `MintedUNI`
that keeps `500 + m` within an `sdk.Int`, burning 100 shares and burning 200
shares of the scenario pool both leave the share total at `500 + m` and the
balance of address 1 at `500 + m`: neither depends on the number of shares
burned. -/
theorem removeLiquidity_supply_ignores_burn (m : Int) (hm : (500 + m).natAbs < 2 ^ 255) :
    (∃ k', HandleMsgRemoveLiquidity (scopeWith 200 m) (withdrawOrder 100) shareKeeper
          = .ok (Result.empty, k')
        ∧ k'.totalUNI = some (500 + m) ∧ k'.UNI 1 = 500 + m)
      ∧ (∃ k', HandleMsgRemoveLiquidity (scopeWith 200 m) (withdrawOrder 200) shareKeeper
          = .ok (Result.empty, k')
        ∧ k'.totalUNI = some (500 + m) ∧ k'.UNI 1 = 500 + m) :=
  ⟨⟨_, removeLiquidity_eval (scopeWith 200 m) (withdrawOrder 100) shareKeeper 1000 1000 500
      200 200 _ _ rfl rfl rfl rfl rfl rfl rfl rfl rfl hm hm, rfl, rfl⟩,
    ⟨_, removeLiquidity_eval (scopeWith 200 m) (withdrawOrder 200) shareKeeper 1000 1000 500
      400 400 _ _ rfl rfl rfl rfl rfl rfl rfl rfl rfl hm hm, rfl, rfl⟩⟩

/-- Witness for C15: with `MintedUNI = 0` the share total stays at 500 whether
100 or 200 shares are burned. -/
theorem removeLiquidity_supply_ignores_burn_witness :
    (∃ k', HandleMsgRemoveLiquidity (scopeWith 200 0) (withdrawOrder 100) shareKeeper
          = .ok (Result.empty, k')
        ∧ k'.totalUNI = some (500 + 0) ∧ k'.UNI 1 = 500 + 0)
      ∧ (∃ k', HandleMsgRemoveLiquidity (scopeWith 200 0) (withdrawOrder 200) shareKeeper
          = .ok (Result.empty, k')
        ∧ k'.totalUNI = some (500 + 0) ∧ k'.UNI 1 = 500 + 0) :=
  removeLiquidity_supply_ignores_burn 0 (by decide)

/-! ## The share supply under deposits -/

/-- C16: every call of `HandleMsgAddLiquidity` that returns success, with the
balance written on line 95 being the sender's, has raised the stored share
total and the sender's balance by the same minted amount
`m = T * DepositAmount / R` and changed no other balance, so that a set of
holders containing the sender whose balances summed to the total before still
does so after; a call that returns an error (the deposit transfer failed) has
changed neither the total nor any balance. -/
theorem addLiquidity_preserves_share_sum (s : DepositScope) (msg : MsgAddLiquidity)
    (k : Keeper) (T : Int) (res : Result) (k' : Keeper)
    (htot : k.totalUNI = some T) (hholder : s.holder = msg.Sender)
    (h : HandleMsgAddLiquidity s msg k = .ok (res, k')) :
    (res = Result.empty →
        ∃ R m, k.exchange NativeAsset = some R ∧ m = Int.tdiv (T * msg.DepositAmount) R
          ∧ k'.totalUNI = some (T + m)
          ∧ k'.UNI msg.Sender = k.UNI msg.Sender + m
          ∧ (∀ a, a ≠ msg.Sender → k'.UNI a = k.UNI a)
          ∧ (∀ S : Finset Nat, msg.Sender ∈ S →
              (∑ a in S, k.UNI a) = T → (∑ a in S, k'.UNI a) = T + m))
      ∧ (res ≠ Result.empty →
          k'.totalUNI = k.totalUNI ∧ k'.UNI = k.UNI ∧ k'.supply = k.supply) := by
  obtain ⟨R, T', coins, hnat, _, htot', _, _, hcase⟩ := addLiquidity_inv s msg k res k' h
  rw [htot] at htot'
  obtain rfl := Option.some.inj htot'
  rcases hcase with ⟨e, _, hres, ht, hu, hs⟩ | ⟨b, _, hres, ht, hu, _⟩
  · refine ⟨fun he => ?_, fun _ => ⟨by rw [ht, htot], hu, hs⟩⟩
    rw [hres] at he
    exact absurd he (by simp)
  · refine ⟨fun _ => ?_, fun hne => absurd hres hne⟩
    refine ⟨R, _, hnat, rfl, ht, ?_, fun a ha => ?_, fun S hS hsum => ?_⟩
    · rw [hu, hholder]
      simp
    · rw [hu, hholder]
      simp [ha]
    · have hfun : ∀ a, (if a = msg.Sender
          then k.UNI msg.Sender + Int.tdiv (T * msg.DepositAmount) R else k.UNI a)
          = k.UNI a + (if a = msg.Sender then Int.tdiv (T * msg.DepositAmount) R else 0) := by
        intro a
        by_cases ha : a = msg.Sender
        · simp [ha]
        · simp [ha]
      rw [hu, hholder]
      simp only [hfun, Finset.sum_add_distrib, Finset.sum_ite_eq', hS, if_true, hsum]

/-- Witness for C16: the deposit of 100 native coins into the scenario pool by
address 1 mints 50 shares, and the balances of the holders 1 and 2 then sum to
the new total 550 as their sum of 500 did before. -/
theorem addLiquidity_preserves_share_sum_witness :
    ∃ k', HandleMsgAddLiquidity tokenScope depositOrder otherHolderKeeper
        = .ok (Result.empty, k')
      ∧ k'.totalUNI = some 550 ∧ k'.UNI 1 = 50 ∧ k'.UNI 2 = 500
      ∧ (∑ a in ({1, 2} : Finset Nat), k'.UNI a) = 550 := by
  obtain ⟨h1, _⟩ := addLiquidity_preserves_share_sum tokenScope depositOrder otherHolderKeeper
    500 Result.empty _ rfl rfl rfl
  obtain ⟨R, m, hR, hm, ht, hu, ho, hsum⟩ := h1 rfl
  have hR' : R = 1000 := (Option.some.inj hR).symm
  subst hR'
  have hm' : m = 50 := hm.trans (by decide)
  subst hm'
  exact ⟨_, rfl, ht, hu, ho 2 (by decide), hsum {1, 2} (by decide) (by decide)⟩

/-! ## Requests for a missing pool -/

/-- The transfer to the module account does not read the exchange store. -/
theorem SendCoinsFromAccountToModule_exchange (k : Keeper) (ex : String → Option Int)
    (a : Nat) (m : String) (coins : List Coin) :
    ({ k with exchange := ex }.SendCoinsFromAccountToModule a m coins).1
      = { (k.SendCoinsFromAccountToModule a m coins).1 with exchange := ex } := by
  unfold Keeper.SendCoinsFromAccountToModule
  cases SendCoins k.supply (Account.addr a) (Account.module m) coins <;> rfl

/-- The transfer from the module account does not read the exchange store. -/
theorem SendCoinsFromModuleToAccount_exchange (k : Keeper) (ex : String → Option Int)
    (m : String) (a : Nat) (coins : List Coin) :
    ({ k with exchange := ex }.SendCoinsFromModuleToAccount m a coins).1
      = { (k.SendCoinsFromModuleToAccount m a coins).1 with exchange := ex } := by
  unfold Keeper.SendCoinsFromModuleToAccount
  cases SendCoins k.supply (Account.module m) (Account.addr a) coins <;> rfl

/-- C17 (as stated) fails: the scenario keeper stores no exchange for `atom`.  A
request to remove liquidity from it panics instead of returning a result, and
a buy order for 100 `atom` returns the empty success result after taking 1
native coin from the sender. -/
theorem removeLiquidity_missing_pool_counterexample :
    shareKeeper.exchange withdrawUnknown.Withdraw.Denom = none
      ∧ HandleMsgRemoveLiquidity (scopeWith 0 0) withdrawUnknown shareKeeper
          = .error "error retrieving total liquidity for denomination: atom"
      ∧ fundedKeeper.exchange buyUnknown.SwapDenom = none
      ∧ ∃ k', HandleMsgSwapOrder reservePricing buyUnknown fundedKeeper = .ok (Result.empty, k')
        ∧ k'.supply (Account.addr 1) "native" = 5000 - 1
        ∧ k'.supply (Account.module "uniswap") "native" = 1000 + 1 :=
  ⟨rfl, rfl, rfl, _, rfl, rfl, rfl⟩

/-- C17 (amended): when no exchange is stored for the request's denomination,
`HandleMsgRemoveLiquidity` panics with the message naming the denomination and
returns no result.  `HandleMsgSwapOrder` makes no existence check: apart from
its pricing call it does not read the exchange store, so on two stores for
which the pricing call agrees it panics or returns alike, with the same result
and the same balances. -/
theorem removeLiquidity_missing_pool_panics (s : PackageScope) (msg : MsgRemoveLiquidity)
    (k : Keeper) (p : SwapPricing) (order : MsgSwapOrder) (ex : String → Option Int)
    (h : k.exchange msg.Withdraw.Denom = none)
    (hin : p.GetInputAmount { k with exchange := ex } order.SwapDenom order.Amount
        = p.GetInputAmount k order.SwapDenom order.Amount)
    (hout : p.GetOutputAmount { k with exchange := ex } order.SwapDenom order.Amount
        = p.GetOutputAmount k order.SwapDenom order.Amount) :
    HandleMsgRemoveLiquidity s msg k
        = .error ("error retrieving total liquidity for denomination: " ++ msg.Withdraw.Denom)
      ∧ HandleMsgSwapOrder p order { k with exchange := ex }
          = (HandleMsgSwapOrder p order k).map
              fun rk => (rk.1, { rk.2 with exchange := ex }) := by
  constructor
  · unfold HandleMsgRemoveLiquidity
    simp [Keeper.GetExchange, h]
  · unfold HandleMsgSwapOrder
    cases hb : order.IsBuyOrder
    · simp only [Bool.false_eq_true, if_false, hout]
      cases p.GetOutputAmount k order.SwapDenom order.Amount with
      | error e => rfl
      | ok c =>
        simp only [Except.bind]
        by_cases hc : order.Output.Amount > c
        · simp only [if_pos hc]
          rfl
        · simp only [if_neg hc]
          cases NewCoins [order.Input] with
          | error e => rfl
          | ok coins =>
            simp only [Except.bind]
            cases NewCoin order.Output.Denom none with
            | error e => rfl
            | ok coin =>
              simp only [Except.bind]
              cases NewCoins [coin] with
              | error e => rfl
              | ok out =>
                simp only [Except.bind, Except.map, SendCoinsFromAccountToModule_exchange,
                  SendCoinsFromModuleToAccount_exchange]
    · simp only [if_true, hin]
      cases p.GetInputAmount k order.SwapDenom order.Amount with
      | error e => rfl
      | ok c =>
        simp only [Except.bind]
        by_cases hc : order.Input.Amount < c
        · simp only [if_pos hc]
          rfl
        · simp only [if_neg hc]
          cases NewCoin order.Input.Denom (some c) with
          | error e => rfl
          | ok coin =>
            simp only [Except.bind]
            cases NewCoins [coin] with
            | error e => rfl
            | ok coins =>
              simp only [Except.bind]
              cases NewCoins [order.Output] with
              | error e => rfl
              | ok out =>
                simp only [Except.bind, Except.map, SendCoinsFromAccountToModule_exchange,
                  SendCoinsFromModuleToAccount_exchange]

/-- Witness for C17 (amended): the scenario keeper stores no exchange for `atom`;
storing one does not change the outcome of a buy order for tokens. -/
theorem removeLiquidity_missing_pool_panics_witness :
    HandleMsgRemoveLiquidity (scopeWith 0 0) withdrawUnknown fundedKeeper
        = .error ("error retrieving total liquidity for denomination: "
            ++ withdrawUnknown.Withdraw.Denom)
      ∧ HandleMsgSwapOrder reservePricing (buyOrder 2000)
          { fundedKeeper with exchange := atomExchange }
          = (HandleMsgSwapOrder reservePricing (buyOrder 2000) fundedKeeper).map
              fun rk => (rk.1, { rk.2 with exchange := atomExchange }) :=
  removeLiquidity_missing_pool_panics (scopeWith 0 0) withdrawUnknown fundedKeeper
    reservePricing (buyOrder 2000) atomExchange rfl rfl rfl

/-! ## The caller's bound on a deposit -/

/-- C18 (as stated) fails: on the scenario pool a deposit of 100 native coins
needs 50 tokens; with a caller-supplied maximum of 10 tokens the handler still
succeeds, takes the 50 tokens and mints 50 shares. -/
theorem addLiquidity_bound_counterexample :
    (boundedDeposit 10).Deposit.Amount = 10
      ∧ ∃ k', HandleMsgAddLiquidity tokenScope (boundedDeposit 10) fundedKeeper
            = .ok (Result.empty, k')
        ∧ k'.supply (Account.addr 1) "token" = 5000 - 50
        ∧ k'.supply (Account.addr 1) "native" = 5000 - 100
        ∧ k'.totalUNI = some 550
        ∧ k'.UNI 1 = 50 :=
  ⟨rfl, _, rfl, rfl, rfl, rfl, rfl⟩

/-- C18 (amended): `HandleMsgAddLiquidity` never reads the caller-supplied maximum
`msg.Deposit.Amount`: replacing it by any other value leaves the result, the
minted shares and the coins transferred the same. -/
theorem addLiquidity_ignores_bound (s : DepositScope) (msg : MsgAddLiquidity) (k : Keeper)
    (bound : Int) :
    HandleMsgAddLiquidity s { msg with Deposit := ⟨msg.Deposit.Denom, bound⟩ } k
      = HandleMsgAddLiquidity s msg k :=
  rfl

end Uniswap
